import Mathlib

/-!
Shallow embedding of perfetto's
`src/trace_processor/importers/proto/memory_tracker_snapshot_parser.cc`
(`MemoryTrackerSnapshotParser`), together with proofs of the behavioural
claims about it.

Modelling conventions:
* interned strings are modelled by the strings themselves (the interner is
  an idempotent injection text -> id, so the text is a faithful stable id);
* the process resolver `GetOrCreateProcess(pid)` is modelled as the identity
  on pids (a stable injection to `upid`);
* the fixed global instant track is modelled as track id `0`;
* table row ids are the row's index in its table (perfetto tables allocate
  ids as monotonically increasing row indices on insert);
* machine integers are `Nat`/`Int`; `static_cast<int64_t>` of a `uint64_t`
  is `toInt64` (explicit reinterpretation modulo `2 ^ 64`);
* the external graph builder (`GraphProcessor::CreateMemoryGraph` plus
  `CalculateSizesForGraph`, out of scope per the spec) is a parameter of the
  importer pipeline, producing a `GlobalNodeGraph` value;
* associative containers declared in headers outside `src/` are modelled
  from the spec (ordered mappings with insert-if-absent semantics for the
  node and pid maps, a multi-valued collection for edges); iteration order
  is modelled as insertion order.
-/

set_option linter.unusedVariables false

/-- Association-list lookup: the value bound to the first occurrence of key
`k`, mirroring `std::map::find`. -/
def findKey {α β : Type} [DecidableEq α] (k : α) : List (α × β) → Option β
  | [] => none
  | (a, b) :: m => if a = k then some b else findKey k m

/-- Modelled from the spec: "ordered mappings with explicit insert-if-absent
semantics (do not use upsert)" (design notes) — `std::map::insert`, which
keeps the existing entry when the key is already present. -/
def insertIfAbsent {α β : Type} [DecidableEq α] (k : α) (v : β) (m : List (α × β)) :
    List (α × β) :=
  if (findKey k m).isSome then m else m ++ [(k, v)]

/-- Apply `f` to the element at index `i`, leaving the rest unchanged
(mirrors an in-place update of an already-inserted row). -/
def listModify {α : Type} : Nat → (α → α) → List α → List α
  | _, _, [] => []
  | 0, f, x :: xs => f x :: xs
  | n + 1, f, x :: xs => x :: listModify n f xs

/-- Snapshot `LevelOfDetail` (enumeration from the importer headers;
the spec lists the three levels detailed / light / background). -/
inductive LevelOfDetail : Type where
  | kDetailed
  | kLight
  | kBackground
deriving DecidableEq, Repr

/-- The `switch (snapshot.level_of_detail())` of `ReadProtoSnapshot`:
0 = FULL -> detailed, 1 = LIGHT -> light, 2 = BACKGROUND -> background,
anything else keeps the default `kDetailed` assigned just before the switch. -/
def decodeLevelOfDetail (code : Nat) : LevelOfDetail :=
  match code with
  | 0 => .kDetailed
  | 1 => .kLight
  | 2 => .kBackground
  | _ => .kDetailed

/-- The `level_of_detail_ids_` array is initialized (constructor, lines 31-33) as the
interned strings `{"detailed", "light", "background"}`, indexed by the
numeric value of `LevelOfDetail`. -/
def levelOfDetailLabel : LevelOfDetail → String
  | .kDetailed => "detailed"
  | .kLight => "light"
  | .kBackground => "background"

/-- The `unit_ids_` array (constructor, lines 34-35): interned `{"objects", "bytes"}`. -/
def unitIds : List String := ["objects", "bytes"]

/-- A `RawMemoryGraphNode::MemoryNodeEntry` value: either a `uint64_t` or a
string (from the importer headers; the spec: "value is either an unsigned
64-bit integer or a string"). -/
inductive MemoryNodeEntryValue : Type where
  | uint64 (v : Nat)
  | str (s : String)
deriving DecidableEq, Repr

/-- A `(key, unit, value)` entry of a raw memory node. -/
structure MemoryNodeEntry : Type where
  name : String
  units : String
  value : MemoryNodeEntryValue
deriving DecidableEq, Repr

/-- Flags `RawMemoryGraphNode::kWeak` / `kDefault`. -/
inductive NodeFlag : Type where
  | kDefault
  | kWeak
deriving DecidableEq, Repr

/-- A decoded `RawMemoryGraphNode` (one allocator node of one process). -/
structure RawMemoryGraphNode : Type where
  absoluteName : String
  levelOfDetail : LevelOfDetail
  id : Nat
  entries : List MemoryNodeEntry
  flags : NodeFlag
deriving DecidableEq, Repr

/-- A decoded `MemoryGraphEdge`. -/
structure MemoryGraphEdge : Type where
  source : Nat
  target : Nat
  priority : Nat
  overridable : Bool
deriving DecidableEq, Repr

/-- A `RawProcessMemoryNode`: one process's decoded data for one chunk.
Modelled from the spec: the node map has unique path keys (first-writer-wins
insert), the edge map is multi-valued by source id ("Multiple edges may share
a source id; all are retained"), kept here as a list of
(source id, edge) pairs in insertion order. -/
structure RawProcessMemoryNode : Type where
  levelOfDetail : LevelOfDetail
  edgesMap : List (Nat × MemoryGraphEdge)
  nodesMap : List (String × RawMemoryGraphNode)
deriving DecidableEq, Repr

/-- The `RawMemoryNodeMap`: the accumulation window, a mapping from pid to
`RawProcessMemoryNode` with unique pid keys (modelled from the spec:
"mapping from process identifier to RawProcessSnapshot"). -/
abbrev RawMemoryNodeMap := List (Nat × RawProcessMemoryNode)

/-- Decoded form of a `MemoryNodeEntry` protobuf message (the wire decoding
itself is out of scope; optional fields model `has_value_uint64` /
`has_value_string`). -/
structure ProtoMemoryNodeEntry : Type where
  name : String
  units : Nat
  value_uint64 : Option Nat
  value_string : Option String
deriving DecidableEq, Repr

/-- Decoded form of a `MemoryNode` protobuf message. -/
structure ProtoMemoryNode : Type where
  id : Nat
  absolute_name : String
  weak : Bool
  size_bytes : Option Nat
  entries : List ProtoMemoryNodeEntry
deriving DecidableEq, Repr

/-- Decoded form of a `MemoryEdge` protobuf message. -/
structure ProtoMemoryEdge : Type where
  source_id : Nat
  target_id : Nat
  importance : Nat
  overridable : Bool
deriving DecidableEq, Repr

/-- Decoded form of a `ProcessSnapshot` protobuf message (one process's
dump within one chunk). -/
structure ProtoProcessSnapshot : Type where
  pid : Nat
  allocator_dumps : List ProtoMemoryNode
  memory_edges : List ProtoMemoryEdge
deriving DecidableEq, Repr

/-- Decoded form of a `MemoryTrackerSnapshot` protobuf message (one chunk). -/
structure ProtoMemoryTrackerSnapshot : Type where
  level_of_detail : Nat
  process_memory_dumps : List ProtoProcessSnapshot
deriving DecidableEq, Repr

/-- The `switch (entry.units())` of `ReadProtoSnapshot` (lines 113-120):
1 -> bytes, 2 -> count/objects, anything else leaves `unit` empty. -/
def decodeUnit (code : Nat) : String :=
  match code with
  | 1 => "bytes"
  | 2 => "objects"
  | _ => ""

/-- The entry loop of `ReadProtoSnapshot` (lines 107-131): decode each
declared entry of a node, producing the decoded entries in order together
with the number of `memory_snapshot_parser_failure` increments (an entry
with neither a `value_uint64` nor a `value_string` increments the counter
and produces nothing). -/
def readEntries : List ProtoMemoryNodeEntry → List MemoryNodeEntry × Nat
  | [] => ([], 0)
  | e :: rest =>
    let unit := decodeUnit e.units
    let r := readEntries rest
    match e.value_uint64 with
    | some v => (⟨e.name, unit, .uint64 v⟩ :: r.1, r.2)
    | none =>
      match e.value_string with
      | some s => (⟨e.name, unit, .str s⟩ :: r.1, r.2)
      | none => (r.1, r.2 + 1)

/-- The node loop body of `ReadProtoSnapshot` (lines 86-134): decode one
allocator dump into a `RawMemoryGraphNode` (synthesizing a leading `size`
entry in bytes when `size_bytes` is present), plus its failure count. -/
def readMemoryNode (lod : LevelOfDetail) (node : ProtoMemoryNode) :
    RawMemoryGraphNode × Nat :=
  let sizeEntries : List MemoryNodeEntry :=
    match node.size_bytes with
    | some sz => [⟨"size", "bytes", .uint64 sz⟩]
    | none => []
  let r := readEntries node.entries
  (⟨node.absolute_name, lod, node.id, sizeEntries ++ r.1,
    if node.weak then .kWeak else .kDefault⟩, r.2)

/-- The node loop of `ReadProtoSnapshot`: build the per-process node map
(`nodes_map.insert` is insert-if-absent keyed by the absolute name, lines
135-136), accumulating the failure count. -/
def readAllocatorDumps (lod : LevelOfDetail) (dumps : List ProtoMemoryNode) :
    List (String × RawMemoryGraphNode) × Nat :=
  dumps.foldl
    (fun acc n =>
      let r := readMemoryNode lod n
      (insertIfAbsent r.1.absoluteName r.1 acc.1, acc.2 + r.2))
    ([], 0)

/-- The edge loop of `ReadProtoSnapshot` (lines 139-151): every decoded edge
is added to the multi-valued edge collection keyed by its source id. -/
def readMemoryEdges (edges : List ProtoMemoryEdge) : List (Nat × MemoryGraphEdge) :=
  edges.map (fun e => (e.source_id, ⟨e.source_id, e.target_id, e.importance, e.overridable⟩))

/-- A typed generic-argument value (`Variadic::Integer` / `Variadic::String`). -/
inductive Variadic : Type where
  | Integer (i : Int)
  | Str (s : String)
deriving DecidableEq, Repr

/-- One generic argument attached to a node row via the args tracker. -/
structure Arg : Type where
  nodeRowId : Nat
  key : String
  value : Variadic
deriving DecidableEq, Repr

/-- A `MemorySnapshotTable` row. -/
structure SnapshotRow : Type where
  ts : Int
  trackId : Nat
  detailLevel : String
deriving DecidableEq, Repr

/-- A `ProcessMemorySnapshotTable` row. -/
structure ProcessSnapshotRow : Type where
  upid : Nat
  snapshotId : Nat
deriving DecidableEq, Repr

/-- A `MemorySnapshotNodeTable` row. -/
structure NodeRow : Type where
  processSnapshotId : Nat
  parentNodeId : Option Nat
  path : String
  size : Option Int
  effectiveSize : Option Int
deriving DecidableEq, Repr

/-- A `MemorySnapshotEdgeTable` row. -/
structure EdgeRow : Type where
  sourceNodeId : Nat
  targetNodeId : Nat
  importance : Nat
deriving DecidableEq, Repr

/-- Kind tag recorded in the order rows are inserted into the store. -/
inductive RowKind : Type where
  | snapshot
  | processSnapshot
  | node
  | edge
deriving DecidableEq, Repr

/-- The observable store state: the four row tables, the generic node
arguments, the insertion-order event trail, and the
`memory_snapshot_parser_failure` stat counter. -/
structure Storage : Type where
  memorySnapshotTable : List SnapshotRow
  processMemorySnapshotTable : List ProcessSnapshotRow
  memorySnapshotNodeTable : List NodeRow
  memorySnapshotEdgeTable : List EdgeRow
  args : List Arg
  insertTrail : List RowKind
  statsParserFailure : Nat
deriving DecidableEq, Repr

/-- The store with no rows and a zero failure counter. -/
def emptyStorage : Storage := ⟨[], [], [], [], [], [], 0⟩

/-- The main loop body of `ReadProtoSnapshot` (lines 75-155): decode each
`ProcessSnapshot` message of the chunk into a `RawProcessMemoryNode` and
insert it into the window keyed by pid (insert-if-absent); parser failures
are counted against the store no matter whether the insert keeps the entry. -/
def readProcessDump (lod : LevelOfDetail) (acc : Storage × RawMemoryNodeMap)
    (pmd : ProtoProcessSnapshot) : Storage × RawMemoryNodeMap :=
  let r := readAllocatorDumps lod pmd.allocator_dumps
  let raw : RawProcessMemoryNode := ⟨lod, readMemoryEdges pmd.memory_edges, r.1⟩
  ({ acc.1 with statsParserFailure := acc.1.statsParserFailure + r.2 },
   insertIfAbsent pmd.pid raw acc.2)

/-- Method `MemoryTrackerSnapshotParser::ReadProtoSnapshot` (lines 56-156): decode
one chunk into the accumulation window, returning the updated store (failure
counter), the updated window, and the chunk's level of detail (which the
caller stores as `last_snapshot_level_of_detail_`). -/
def ReadProtoSnapshot (blob : ProtoMemoryTrackerSnapshot) (storage : Storage)
    (rawNodes : RawMemoryNodeMap) : Storage × RawMemoryNodeMap × LevelOfDetail :=
  let lod := decodeLevelOfDetail blob.level_of_detail
  let r := blob.process_memory_dumps.foldl (readProcessDump lod) (storage, rawNodes)
  (r.1, r.2, lod)

/-- Type of a `GlobalNodeGraph::Node::Entry` (`kUInt64` or `kString`). -/
inductive GraphEntryType : Type where
  | kUInt64
  | kString
deriving DecidableEq, Repr

/-- Modelled from the spec: a typed entry of a graph node produced by the
external GraphBuilder — a numeric (`uint64`) or string value plus a numeric
unit code that indexes `unit_ids_` when recognized. -/
structure GraphEntry : Type where
  type : GraphEntryType
  units : Nat
  value_uint64 : Nat
  value_string : String
deriving DecidableEq, Repr

mutual
/-- Modelled from the spec: a `GlobalNodeGraph::Node` built by the external
GraphBuilder — an opaque identity usable to resolve edges, a map of typed
entries, and a set of named children. -/
inductive GraphNode : Type where
  | mk (id : Nat) (constEntries : List (String × GraphEntry)) (children : GraphChildren)
/-- The name-keyed children collection of a `GlobalNodeGraph::Node`. -/
inductive GraphChildren : Type where
  | nil
  | cons (name : String) (node : GraphNode) (rest : GraphChildren)
end

/-- The opaque identity of a graph node (`node.id()`). -/
def GraphNode.id : GraphNode → Nat
  | .mk i _ _ => i

/-- The typed entries of a graph node (`node.const_entries()`). -/
def GraphNode.constEntries : GraphNode → List (String × GraphEntry)
  | .mk _ es _ => es

/-- The named children of a graph node (`node.children()`). -/
def GraphNode.children : GraphNode → GraphChildren
  | .mk _ _ cs => cs

/-- Modelled from the spec: a resolved `GlobalNodeGraph::Edge` — the
identities of its source and target nodes plus its importance rank (the
emitter only reads `source()->id()`, `target()->id()` and `priority()`). -/
structure GraphEdge : Type where
  sourceId : Nat
  targetId : Nat
  priority : Nat
deriving DecidableEq, Repr

/-- Modelled from the spec: the output shape of the external GraphBuilder —
one tree root per process id, one additional shared-memory tree, and a flat
collection of resolved edges spanning all processes. -/
structure GlobalNodeGraph : Type where
  processNodeGraphs : List (Nat × GraphNode)
  sharedMemoryGraph : GraphNode
  edges : List GraphEdge

/-- The external graph-building step (`GraphProcessor::CreateMemoryGraph`
followed by `CalculateSizesForGraph`), kept abstract as a parameter of the
pipeline. -/
abbrev GraphBuilder := RawMemoryNodeMap → GlobalNodeGraph

mutual
/-- Number of nodes in a tree, the synthetic root included. -/
def GraphNode.countNodes : GraphNode → Nat
  | .mk _ _ cs => 1 + GraphChildren.countNodes cs
/-- Total number of nodes in a children collection. -/
def GraphChildren.countNodes : GraphChildren → Nat
  | .nil => 0
  | .cons _ c rest => GraphNode.countNodes c + GraphChildren.countNodes rest
end

mutual
/-- The identities of all nodes of a tree, the root included. -/
def GraphNode.subtreeIds : GraphNode → List Nat
  | .mk i _ cs => i :: GraphChildren.subtreeIds cs
/-- The identities of all nodes of a children collection. -/
def GraphChildren.subtreeIds : GraphChildren → List Nat
  | .nil => []
  | .cons _ c rest => GraphNode.subtreeIds c ++ GraphChildren.subtreeIds rest
end

/-- Number of direct children. -/
def GraphChildren.length : GraphChildren → Nat
  | .nil => 0
  | .cons _ _ rest => 1 + GraphChildren.length rest

/-- True when every direct child name is a non-empty string (names produced
by the GraphBuilder are path segments). -/
def GraphChildren.namesNonempty : GraphChildren → Bool
  | .nil => true
  | .cons name _ rest => (name != "") && GraphChildren.namesNonempty rest

/-- The node identities emitted as rows by `EmitRows`: every node of every
process tree and of the shared tree except the synthetic roots. -/
def emittedIds (graph : GlobalNodeGraph) : List Nat :=
  (graph.processNodeGraphs.map (fun pr => GraphChildren.subtreeIds pr.2.children)).flatten ++
    GraphChildren.subtreeIds graph.sharedMemoryGraph.children

/-- Modelling of `static_cast<int64_t>` applied to a `uint64_t` value: reinterpretation
modulo `2 ^ 64` (line 280). -/
def toInt64 (v : Nat) : Int :=
  let m : Nat := v % 2 ^ 64
  if m < 2 ^ 63 then (m : Int) else (m : Int) - 2 ^ 64

/-- Model of `ArgsTracker::BoundInserter::AddArg`: attach one generic argument to a
node row. -/
def addArg (rowId : Nat) (key : String) (v : Variadic) (st : Storage) : Storage :=
  { st with args := st.args ++ [⟨rowId, key, v⟩] }

/-- The entry loop of `MemoryTrackerSnapshotParser::EmitNode`
(lines 277-306): a numeric `size` / `effective_size` entry updates the
dedicated column of the already-inserted row in place; any other numeric
entry produces a `<key>.value` integer argument plus, when the unit code
indexes `unit_ids_`, a `<key>.unit` string argument; a string entry produces
a `<key>.value` string argument. -/
def emitEntryStep (rowId : Nat) (st : Storage) (kv : String × GraphEntry) : Storage :=
  match kv.2.type with
  | .kUInt64 =>
    let valueInt := toInt64 kv.2.value_uint64
    if kv.1 = "size" then
      let tab := listModify rowId (fun r => { r with size := some valueInt })
        st.memorySnapshotNodeTable
      { st with memorySnapshotNodeTable := tab }
    else if kv.1 = "effective_size" then
      let tab := listModify rowId (fun r => { r with effectiveSize := some valueInt })
        st.memorySnapshotNodeTable
      { st with memorySnapshotNodeTable := tab }
    else
      let st := addArg rowId (kv.1 ++ ".value") (.Integer valueInt) st
      if kv.2.units < unitIds.length then
        addArg rowId (kv.1 ++ ".unit") (.Str (unitIds.getD kv.2.units "")) st
      else st
  | .kString =>
      addArg rowId (kv.1 ++ ".value") (.Str kv.2.value_string) st

/-- The entry loop itself, processing the entries in order. -/
def emitEntries (rowId : Nat) : List (String × GraphEntry) → Storage → Storage
  | [], st => st
  | kv :: rest, st => emitEntries rowId rest (emitEntryStep rowId st kv)

/-- Method `MemoryTrackerSnapshotParser::EmitNode` (lines 254-309): insert one node
row (its id is the row index), process the node's entries, and record the
node identity -> row id mapping (`emplace` is insert-if-absent). -/
def EmitNode (node : GraphNode) (path : String) (parentNodeRowId : Option Nat)
    (procSnapshotRowId : Nat) (st : Storage) (idNodeMap : List (Nat × Nat)) :
    Nat × Storage × List (Nat × Nat) :=
  let rowId := st.memorySnapshotNodeTable.length
  let st := { st with
    memorySnapshotNodeTable :=
      st.memorySnapshotNodeTable ++ [⟨procSnapshotRowId, parentNodeRowId, path, none, none⟩],
    insertTrail := st.insertTrail ++ [.node] }
  let st := emitEntries rowId node.constEntries st
  (rowId, st, insertIfAbsent node.id rowId idNodeMap)

mutual
/-- Method `MemoryTrackerSnapshotParser::EmitMemorySnapshotNodeRowsRecursively`
(lines 229-252): a node with an empty accumulated path (the synthetic root)
is not emitted; every other node is emitted and its row id becomes the
`parent_node_id` of its children. -/
def EmitMemorySnapshotNodeRowsRecursively (node : GraphNode) (path : String)
    (parentNodeRowId : Option Nat) (procSnapshotRowId : Nat) (st : Storage)
    (idNodeMap : List (Nat × Nat)) : Storage × List (Nat × Nat) :=
  match node with
  | .mk nid es cs =>
    if path = "" then
      emitChildrenRows cs path none procSnapshotRowId st idNodeMap
    else
      let r := EmitNode (.mk nid es cs) path parentNodeRowId procSnapshotRowId st idNodeMap
      emitChildrenRows cs path (some r.1) procSnapshotRowId r.2.1 r.2.2
/-- The children loop of `EmitMemorySnapshotNodeRowsRecursively`
(lines 242-251): each child's path extends the parent's path with `/` (no
separator at the top level). -/
def emitChildrenRows (cs : GraphChildren) (path : String) (nodeRowId : Option Nat)
    (procSnapshotRowId : Nat) (st : Storage) (idNodeMap : List (Nat × Nat)) :
    Storage × List (Nat × Nat) :=
  match cs with
  | .nil => (st, idNodeMap)
  | .cons name child rest =>
    let childPath := if path = "" then name else path ++ "/" ++ name
    let r := EmitMemorySnapshotNodeRowsRecursively child childPath nodeRowId
      procSnapshotRowId st idNodeMap
    emitChildrenRows rest path nodeRowId procSnapshotRowId r.1 r.2
end

/-- Method `MemoryTrackerSnapshotParser::EmitMemorySnapshotNodeRows`
(lines 220-227): start the recursion at the tree root with an empty path and
no parent row. -/
def EmitMemorySnapshotNodeRows (rootNodeGraph : GraphNode) (procSnapshotRowId : Nat)
    (st : Storage) (idNodeMap : List (Nat × Nat)) : Storage × List (Nat × Nat) :=
  EmitMemorySnapshotNodeRowsRecursively rootNodeGraph "" none procSnapshotRowId st idNodeMap

/-- The per-process loop body of `EmitRows` (lines 182-193): insert one
process-snapshot row for the process (its upid resolved from the pid) and
emit the process tree's node rows under it. -/
def emitProcessStep (snapshotRowId : Nat) (acc : Storage × List (Nat × Nat))
    (pr : Nat × GraphNode) : Storage × List (Nat × Nat) :=
  let procRowId := acc.1.processMemorySnapshotTable.length
  let st := { acc.1 with
    processMemorySnapshotTable := acc.1.processMemorySnapshotTable ++ [⟨pr.1, snapshotRowId⟩],
    insertTrail := acc.1.insertTrail ++ [.processSnapshot] }
  EmitMemorySnapshotNodeRows pr.2 procRowId st acc.2

/-- The edge loop body of `EmitRows` (lines 209-217): resolve the edge's
source and target identities through the id -> node-row map and insert one
edge row. The source dereferences the lookups unconditionally (a miss is a
contract violation of the GraphBuilder); the model inserts nothing on a
miss. -/
def emitEdgeStep (idNodeMap : List (Nat × Nat)) (st : Storage) (e : GraphEdge) : Storage :=
  match findKey e.sourceId idNodeMap, findKey e.targetId idNodeMap with
  | some s, some t =>
    { st with
      memorySnapshotEdgeTable := st.memorySnapshotEdgeTable ++ [⟨s, t, e.priority⟩],
      insertTrail := st.insertTrail ++ [.edge] }
  | _, _ => st

/-- Method `MemoryTrackerSnapshotParser::EmitRows` (lines 165-218): insert the
snapshot row, then one process-snapshot row plus node rows per process tree,
then the fabricated pid-0 process-snapshot row and the shared tree's node
rows, and finally all edge rows. -/
def EmitRows (ts : Int) (graph : GlobalNodeGraph) (lod : LevelOfDetail) (st : Storage) :
    Storage :=
  let snapshotRowId := st.memorySnapshotTable.length
  let st := { st with
    memorySnapshotTable := st.memorySnapshotTable ++ [⟨ts, 0, levelOfDetailLabel lod⟩],
    insertTrail := st.insertTrail ++ [.snapshot] }
  let r := graph.processNodeGraphs.foldl (emitProcessStep snapshotRowId) (st, [])
  let fakeProcRowId := r.1.processMemorySnapshotTable.length
  let st := { r.1 with
    processMemorySnapshotTable := r.1.processMemorySnapshotTable ++ [⟨0, snapshotRowId⟩],
    insertTrail := r.1.insertTrail ++ [.processSnapshot] }
  let r2 := EmitMemorySnapshotNodeRows graph.sharedMemoryGraph fakeProcRowId st r.2
  graph.edges.foldl (emitEdgeStep r2.2) r2.1

/-- The mutable state of a `MemoryTrackerSnapshotParser` instance: the store
it writes to, the accumulation window, and the timestamp / detail level of
the most recent chunk (constructor, lines 28-38). -/
structure MemoryTrackerSnapshotParser : Type where
  storage : Storage
  aggregateRawNodes : RawMemoryNodeMap
  lastSnapshotTimestamp : Int
  lastSnapshotLevelOfDetail : LevelOfDetail
deriving DecidableEq, Repr

/-- A freshly constructed parser over the given store: empty window,
timestamp -1, level of detail `kFirst` (the first enumerator, detailed). -/
def initialParser (st : Storage) : MemoryTrackerSnapshotParser :=
  ⟨st, [], -1, .kDetailed⟩

/-- Method `MemoryTrackerSnapshotParser::GenerateGraphFromRawNodesAndEmitRows`
(lines 311-316): build the graph from the window, emit its rows at the
window's timestamp and detail level, and clear the window. -/
def GenerateGraphFromRawNodesAndEmitRows (gb : GraphBuilder)
    (p : MemoryTrackerSnapshotParser) : MemoryTrackerSnapshotParser :=
  { p with
    storage := EmitRows p.lastSnapshotTimestamp (gb p.aggregateRawNodes)
      p.lastSnapshotLevelOfDetail p.storage,
    aggregateRawNodes := [] }

/-- Method `MemoryTrackerSnapshotParser::ParseMemoryTrackerSnapshot` (lines 40-48):
finalize the previous window when a chunk with a different timestamp arrives
while the window is non-empty, then decode the chunk into the window and
record its timestamp and detail level. -/
def ParseMemoryTrackerSnapshot (gb : GraphBuilder) (ts : Int)
    (blob : ProtoMemoryTrackerSnapshot) (p : MemoryTrackerSnapshotParser) :
    MemoryTrackerSnapshotParser :=
  let p :=
    if p.aggregateRawNodes ≠ [] ∧ ts ≠ p.lastSnapshotTimestamp then
      GenerateGraphFromRawNodesAndEmitRows gb p
    else p
  let r := ReadProtoSnapshot blob p.storage p.aggregateRawNodes
  { storage := r.1, aggregateRawNodes := r.2.1, lastSnapshotTimestamp := ts,
    lastSnapshotLevelOfDetail := r.2.2 }

/-- Method `MemoryTrackerSnapshotParser::NotifyEndOfFile` (lines 50-54): finalize
the window when it is non-empty; otherwise do nothing. -/
def NotifyEndOfFile (gb : GraphBuilder) (p : MemoryTrackerSnapshotParser) :
    MemoryTrackerSnapshotParser :=
  if p.aggregateRawNodes ≠ [] then GenerateGraphFromRawNodesAndEmitRows gb p else p

/-- Stated from the claim wording (C8): the generic arguments one entry
contributes — a numeric entry keyed exactly `size` or `effective_size`
contributes none; any other numeric entry contributes `<key>.value` holding
the integer plus, only for a recognized unit, `<key>.unit` holding the
interned unit name; a string entry contributes only `<key>.value` and never
a unit argument. -/
def specEntryArgs (rowId : Nat) (kv : String × GraphEntry) : List Arg :=
  match kv.2.type with
  | .kUInt64 =>
    if kv.1 = "size" ∨ kv.1 = "effective_size" then []
    else
      ⟨rowId, kv.1 ++ ".value", .Integer (toInt64 kv.2.value_uint64)⟩ ::
        (if kv.2.units < unitIds.length then
          [⟨rowId, kv.1 ++ ".unit", .Str (unitIds.getD kv.2.units "")⟩]
        else [])
  | .kString => [⟨rowId, kv.1 ++ ".value", .Str kv.2.value_string⟩]

/-- Stated from the claim wording (C8): the in-place update one entry
performs on the already-inserted node row — a numeric entry keyed exactly
`size` (resp. `effective_size`) writes its integer value into the dedicated
column; every other entry leaves the row unchanged. -/
def specEntryColumn (r : NodeRow) (kv : String × GraphEntry) : NodeRow :=
  match kv.2.type with
  | .kUInt64 =>
    if kv.1 = "size" then { r with size := some (toInt64 kv.2.value_uint64) }
    else if kv.1 = "effective_size" then
      { r with effectiveSize := some (toInt64 kv.2.value_uint64) }
    else r
  | .kString => r

/-- The cumulative in-place column updates of a list of entries. -/
def specApplyEntries : NodeRow → List (String × GraphEntry) → NodeRow
  | r, [] => r
  | r, kv :: rest => specApplyEntries (specEntryColumn r kv) rest

/-- Parent-linkage invariant of a run of node rows inserted consecutively
starting at absolute table index `pos`: every row's `parent_node_id` is
either the parent id handed to the run (`par`, which is `none` for
top-level children) or the index of a row inserted within the run strictly
before it (at an absolute index in `[lo, currentIndex)`). -/
def rowsPar (par : Option Nat) (lo : Nat) : Nat → List NodeRow → Prop
  | _, [] => True
  | pos, r :: rest =>
    (r.parentNodeId = par ∨ ∃ j, r.parentNodeId = some j ∧ lo ≤ j ∧ j < pos) ∧
      rowsPar par lo (pos + 1) rest

/-- A trivial graph builder producing an empty graph, used to instantiate
the pipeline on concrete inputs whose scenario never reaches emission. -/
def trivialGraphBuilder : GraphBuilder := fun _ => ⟨[], .mk 0 [] .nil, []⟩

theorem findKey_append_of_ne {α β : Type} [DecidableEq α] (k a : α) (b : β)
    (m : List (α × β)) (h : a ≠ k) : findKey k (m ++ [(a, b)]) = findKey k m := by
  induction m with
  | nil => simp [findKey, h]
  | cons x xs ih => obtain ⟨xa, xb⟩ := x; by_cases hx : xa = k <;> simp [findKey, hx, ih]

theorem findKey_append_self {α β : Type} [DecidableEq α] (k : α) (v : β)
    (m : List (α × β)) (h : findKey k m = none) : findKey k (m ++ [(k, v)]) = some v := by
  induction m with
  | nil => simp [findKey]
  | cons x xs ih =>
    obtain ⟨xa, xb⟩ := x
    by_cases hx : xa = k
    · simp [findKey, hx] at h
    · simp [findKey, hx] at h ⊢; exact ih h

theorem findKey_append_some {α β : Type} [DecidableEq α] {k : α} {v : β}
    {m : List (α × β)} (h : findKey k m = some v) (l : List (α × β)) :
    findKey k (m ++ l) = some v := by
  induction m with
  | nil => simp [findKey] at h
  | cons x xs ih =>
    obtain ⟨xa, xb⟩ := x
    by_cases hx : xa = k <;> simp [findKey, hx] at h ⊢ <;> simp_all [ih]

theorem insertIfAbsent_of_isSome {α β : Type} [DecidableEq α] {k : α}
    {m : List (α × β)} (h : (findKey k m).isSome) (v : β) : insertIfAbsent k v m = m := by
  simp [insertIfAbsent, h]

theorem insertIfAbsent_of_none {α β : Type} [DecidableEq α] {k : α}
    {m : List (α × β)} (h : findKey k m = none) (v : β) :
    insertIfAbsent k v m = m ++ [(k, v)] := by
  simp [insertIfAbsent, h]

theorem findKey_insertIfAbsent_of_some {α β : Type} [DecidableEq α] {k a : α}
    {v : β} {m : List (α × β)} (h : findKey k m = some v) (w : β) :
    findKey k (insertIfAbsent a w m) = some v := by
  unfold insertIfAbsent
  split
  · exact h
  · by_cases hak : a = k
    · subst hak
      next hn => simp [h] at hn
    · rw [findKey_append_of_ne _ _ _ _ hak]; exact h

theorem findKey_insertIfAbsent_self {α β : Type} [DecidableEq α] (k : α) (v : β)
    (m : List (α × β)) : (findKey k (insertIfAbsent k v m)).isSome := by
  unfold insertIfAbsent
  split
  · assumption
  · next hn =>
    rw [findKey_append_self k v m (Option.not_isSome_iff_eq_none.mp hn)]
    rfl

theorem listModify_length {α : Type} (i : Nat) (f : α → α) (l : List α) :
    (listModify i f l).length = l.length := by
  induction l generalizing i with
  | nil => cases i <;> rfl
  | cons x xs ih => cases i <;> simp [listModify, ih]

theorem listModify_concat {α : Type} (f : α → α) (base : List α) (r : α) :
    listModify base.length f (base ++ [r]) = base ++ [f r] := by
  induction base with
  | nil => rfl
  | cons x xs ih => simpa [listModify] using ih

theorem emitEntries_spec (es : List (String × GraphEntry)) (st : Storage)
    (base : List NodeRow) (r : NodeRow) (h : st.memorySnapshotNodeTable = base ++ [r]) :
    emitEntries base.length es st =
      { st with
        memorySnapshotNodeTable := base ++ [specApplyEntries r es],
        args := st.args ++ (es.map (specEntryArgs base.length)).flatten } := by
  induction es generalizing st r with
  | nil =>
    simp only [emitEntries, specApplyEntries, List.map_nil, List.flatten_nil,
      List.append_nil]
    cases st
    simp_all
  | cons kv rest ih =>
    obtain ⟨k, e⟩ := kv
    show emitEntries base.length rest (emitEntryStep base.length st (k, e)) = _
    cases he : e.type
    case kUInt64 =>
      by_cases hks : k = "size"
      · have hstep : emitEntryStep base.length st (k, e) =
            { st with memorySnapshotNodeTable :=
                base ++ [{ r with size := some (toInt64 e.value_uint64) }] } := by
          simp [emitEntryStep, he, hks, h, listModify_concat]
        rw [hstep, ih _ { r with size := some (toInt64 e.value_uint64) } (by simp)]
        simp [specApplyEntries, specEntryColumn, specEntryArgs, he, hks]
      · by_cases hke : k = "effective_size"
        · have hstep : emitEntryStep base.length st (k, e) =
              { st with memorySnapshotNodeTable :=
                  base ++ [{ r with effectiveSize := some (toInt64 e.value_uint64) }] } := by
            simp [emitEntryStep, he, hks, hke, h, listModify_concat]
          rw [hstep, ih _ { r with effectiveSize := some (toInt64 e.value_uint64) } (by simp)]
          simp [specApplyEntries, specEntryColumn, specEntryArgs, he, hks, hke]
        · by_cases hu : e.units < unitIds.length
          · have hstep : emitEntryStep base.length st (k, e) =
                { st with args := st.args ++
                    [⟨base.length, k ++ ".value", .Integer (toInt64 e.value_uint64)⟩,
                     ⟨base.length, k ++ ".unit", .Str (unitIds.getD e.units "")⟩] } := by
              simp [emitEntryStep, he, hks, hke, hu, addArg]
            rw [hstep, ih _ r (by simpa using h)]
            simp [specApplyEntries, specEntryColumn, specEntryArgs, he, hks, hke, hu]
          · have hstep : emitEntryStep base.length st (k, e) =
                { st with args := st.args ++
                    [⟨base.length, k ++ ".value", .Integer (toInt64 e.value_uint64)⟩] } := by
              simp [emitEntryStep, he, hks, hke, hu, addArg]
            rw [hstep, ih _ r (by simpa using h)]
            simp [specApplyEntries, specEntryColumn, specEntryArgs, he, hks, hke, hu]
    case kString =>
      have hstep : emitEntryStep base.length st (k, e) =
          { st with args := st.args ++
              [⟨base.length, k ++ ".value", .Str e.value_string⟩] } := by
        simp [emitEntryStep, he, addArg]
      rw [hstep, ih _ r (by simpa using h)]
      simp [specApplyEntries, specEntryColumn, specEntryArgs, he]

theorem EmitNode_spec (node : GraphNode) (path : String) (par : Option Nat)
    (psid : Nat) (st : Storage) (inm : List (Nat × Nat)) :
    EmitNode node path par psid st inm =
      (st.memorySnapshotNodeTable.length,
       { st with
         memorySnapshotNodeTable := st.memorySnapshotNodeTable ++
           [specApplyEntries ⟨psid, par, path, none, none⟩ node.constEntries],
         args := st.args ++ (node.constEntries.map
           (specEntryArgs st.memorySnapshotNodeTable.length)).flatten,
         insertTrail := st.insertTrail ++ [.node] },
       insertIfAbsent node.id st.memorySnapshotNodeTable.length inm) := by
  show (st.memorySnapshotNodeTable.length,
      emitEntries st.memorySnapshotNodeTable.length node.constEntries
        { st with
          memorySnapshotNodeTable := st.memorySnapshotNodeTable ++
            [⟨psid, par, path, none, none⟩],
          insertTrail := st.insertTrail ++ [.node] },
      insertIfAbsent node.id st.memorySnapshotNodeTable.length inm) = _
  rw [emitEntries_spec node.constEntries _ st.memorySnapshotNodeTable
    ⟨psid, par, path, none, none⟩ (by simp)]

theorem findKey_insertIfAbsent_cases {α β : Type} [DecidableEq α] {x k : α}
    {v w : β} {m : List (α × β)} (h : findKey x (insertIfAbsent k v m) = some w) :
    findKey x m = some w ∨ (x = k ∧ w = v ∧ findKey x m = none) := by
  unfold insertIfAbsent at h
  split at h
  · exact Or.inl h
  · next hn =>
    have hm := Option.not_isSome_iff_eq_none.mp hn
    by_cases hxk : x = k
    · subst hxk
      rw [findKey_append_self x v m hm] at h
      exact Or.inr ⟨rfl, (Option.some.injEq _ _).mp h.symm, hm⟩
    · rw [findKey_append_of_ne x k v m (fun hkx => hxk hkx.symm)] at h
      exact Or.inl h

theorem concatPathNe (p n : String) : p ++ "/" ++ n ≠ "" := by
  intro h
  have hlen := congrArg String.length h
  simp [String.length_append] at hlen
  exact absurd hlen.1.2 (by decide)

theorem childPathNe (p n : String) (h : p ≠ "" ∨ n ≠ "") :
    (if p = "" then n else p ++ "/" ++ n) ≠ "" := by
  by_cases hp : p = ""
  · simp [hp]
    rcases h with h | h
    · exact absurd hp h
    · exact h
  · simp [hp]
    exact concatPathNe p n

theorem GraphNode.subtreeIds_eq (n : GraphNode) :
    GraphNode.subtreeIds n = n.id :: GraphChildren.subtreeIds n.children := by
  cases n
  rfl

mutual
theorem emitRecursively_shape (node : GraphNode) (path : String) (par : Option Nat)
    (psid : Nat) (st : Storage) (inm : List (Nat × Nat)) (st2 : Storage)
    (inm2 : List (Nat × Nat))
    (hr : EmitMemorySnapshotNodeRowsRecursively node path par psid st inm = (st2, inm2)) :
    st2.memorySnapshotTable = st.memorySnapshotTable ∧
    st2.processMemorySnapshotTable = st.processMemorySnapshotTable ∧
    st2.memorySnapshotEdgeTable = st.memorySnapshotEdgeTable ∧
    st2.statsParserFailure = st.statsParserFailure ∧
    (∃ rows, st2.memorySnapshotNodeTable = st.memorySnapshotNodeTable ++ rows) ∧
    (∃ tl, st2.insertTrail = st.insertTrail ++ tl ∧ ∀ x ∈ tl, x = RowKind.node) ∧
    (∀ id v, findKey id inm = some v → findKey id inm2 = some v) ∧
    ((path ≠ "" ∨ GraphChildren.namesNonempty node.children = true) →
      ∀ id ∈ GraphChildren.subtreeIds node.children, (findKey id inm2).isSome) ∧
    (path ≠ "" → (findKey node.id inm2).isSome) ∧
    (∀ lo, lo ≤ st.memorySnapshotNodeTable.length →
      (∀ id v, findKey id inm = some v →
        lo ≤ v ∧ v < st.memorySnapshotNodeTable.length) →
      (∀ id v, findKey id inm2 = some v →
        lo ≤ v ∧ v < st2.memorySnapshotNodeTable.length)) := by
  cases node with
  | mk nid es cs =>
    by_cases hp : path = ""
    · rw [EmitMemorySnapshotNodeRowsRecursively, if_pos hp] at hr
      obtain ⟨h1, h2, h3, h4, h5, h6, h7, h8, h9⟩ :=
        emitChildrenRows_shape cs path none psid st inm st2 inm2 hr
      exact ⟨h1, h2, h3, h4, h5, h6, h7,
        fun hc id hid => h8 (by simpa [GraphNode.children] using hc) id hid,
        fun hpne => absurd hp hpne, h9⟩
    · rw [EmitMemorySnapshotNodeRowsRecursively, if_neg hp, EmitNode_spec] at hr
      obtain ⟨h1, h2, h3, h4, h5, h6, h7, h8, h9⟩ :=
        emitChildrenRows_shape cs path (some st.memorySnapshotNodeTable.length) psid _ _
          st2 inm2 hr
      have hpres : ∀ id v, findKey id inm = some v → findKey id inm2 = some v := by
        intro id v hv
        exact h7 id v (findKey_insertIfAbsent_of_some hv _)
      refine ⟨by simpa using h1, by simpa using h2, by simpa using h3, by simpa using h4,
        ?_, ?_, hpres, ?_, ?_, ?_⟩
      · obtain ⟨rows, hrows⟩ := h5
        exact ⟨_ :: rows, by simpa [List.append_assoc] using hrows⟩
      · obtain ⟨tl, htl, hall⟩ := h6
        refine ⟨.node :: tl, by simpa [List.append_assoc] using htl, ?_⟩
        intro x hx
        rcases List.mem_cons.mp hx with hx | hx
        · exact hx
        · exact hall x hx
      · intro _ id hid
        exact h8 (Or.inl hp) id (by simpa [GraphNode.children] using hid)
      · intro _
        have : (findKey (GraphNode.id (.mk nid es cs))
            (insertIfAbsent nid st.memorySnapshotNodeTable.length inm)).isSome := by
          simpa [GraphNode.id] using
            findKey_insertIfAbsent_self nid st.memorySnapshotNodeTable.length inm
        obtain ⟨v, hv⟩ := Option.isSome_iff_exists.mp this
        have := h7 _ v (by simpa [GraphNode.id] using hv)
        simp [GraphNode.id, this]
      · intro lo hlo hinv
        refine h9 lo (by simpa using Nat.le_trans hlo (Nat.le_succ _)) ?_
        intro id v hv
        rcases findKey_insertIfAbsent_cases hv with hv | ⟨hxk, hwv, hnone⟩
        · obtain ⟨ha, hb⟩ := hinv id v hv
          refine ⟨ha, ?_⟩
          simp only [List.length_append, List.length_cons, List.length_nil]
          omega
        · subst hwv
          refine ⟨hlo, ?_⟩
          simp only [List.length_append, List.length_cons, List.length_nil]
          omega

theorem emitChildrenRows_shape (cs : GraphChildren) (path : String)
    (nodeRowId : Option Nat) (psid : Nat) (st : Storage) (inm : List (Nat × Nat))
    (st2 : Storage) (inm2 : List (Nat × Nat))
    (hr : emitChildrenRows cs path nodeRowId psid st inm = (st2, inm2)) :
    st2.memorySnapshotTable = st.memorySnapshotTable ∧
    st2.processMemorySnapshotTable = st.processMemorySnapshotTable ∧
    st2.memorySnapshotEdgeTable = st.memorySnapshotEdgeTable ∧
    st2.statsParserFailure = st.statsParserFailure ∧
    (∃ rows, st2.memorySnapshotNodeTable = st.memorySnapshotNodeTable ++ rows) ∧
    (∃ tl, st2.insertTrail = st.insertTrail ++ tl ∧ ∀ x ∈ tl, x = RowKind.node) ∧
    (∀ id v, findKey id inm = some v → findKey id inm2 = some v) ∧
    ((path ≠ "" ∨ GraphChildren.namesNonempty cs = true) →
      ∀ id ∈ GraphChildren.subtreeIds cs, (findKey id inm2).isSome) ∧
    (∀ lo, lo ≤ st.memorySnapshotNodeTable.length →
      (∀ id v, findKey id inm = some v →
        lo ≤ v ∧ v < st.memorySnapshotNodeTable.length) →
      (∀ id v, findKey id inm2 = some v →
        lo ≤ v ∧ v < st2.memorySnapshotNodeTable.length)) := by
  cases cs with
  | nil =>
    rw [emitChildrenRows] at hr
    obtain ⟨rfl, rfl⟩ := Prod.mk.injEq .. ▸ hr
    refine ⟨rfl, rfl, rfl, rfl, ⟨[], by simp⟩, ⟨[], by simp, by simp⟩,
      fun id v hv => hv, ?_, ?_⟩
    · intro _ id hid
      simp [GraphChildren.subtreeIds] at hid
    · intro lo hlo hinv
      exact hinv
  | cons name child rest =>
    simp only [emitChildrenRows] at hr
    rcases hmid : EmitMemorySnapshotNodeRowsRecursively child
        (if path = "" then name else path ++ "/" ++ name) nodeRowId psid st inm with
      ⟨mst, minm⟩
    rw [hmid] at hr
    obtain ⟨a1, a2, a3, a4, a5, a6, a7, a8, a9, a10⟩ :=
      emitRecursively_shape child (if path = "" then name else path ++ "/" ++ name)
        nodeRowId psid st inm mst minm hmid
    obtain ⟨b1, b2, b3, b4, b5, b6, b7, b8, b9⟩ :=
      emitChildrenRows_shape rest path nodeRowId psid mst minm st2 inm2 hr
    have hmstlen : st.memorySnapshotNodeTable.length ≤ mst.memorySnapshotNodeTable.length := by
      obtain ⟨rows, hrows⟩ := a5
      simp [hrows]
    refine ⟨b1.trans a1, b2.trans a2, b3.trans a3, b4.trans a4, ?_, ?_, ?_, ?_, ?_⟩
    · obtain ⟨r1, hr1⟩ := a5
      obtain ⟨r2, hr2⟩ := b5
      exact ⟨r1 ++ r2, by simp [hr2, hr1]⟩
    · obtain ⟨t1, ht1, hall1⟩ := a6
      obtain ⟨t2, ht2, hall2⟩ := b6
      refine ⟨t1 ++ t2, by simp [ht2, ht1], ?_⟩
      intro x hx
      rcases List.mem_append.mp hx with hx | hx
      · exact hall1 x hx
      · exact hall2 x hx
    · intro id v hv
      exact b7 id v (a7 id v hv)
    · intro hcov id hid
      have hne : (if path = "" then name else path ++ "/" ++ name) ≠ "" := by
        rcases hcov with hcov | hcov
        · exact childPathNe path name (Or.inl hcov)
        · simp [GraphChildren.namesNonempty, Bool.and_eq_true, bne_iff_ne] at hcov
          exact childPathNe path name (Or.inr hcov.1)
      have hrestcov : path ≠ "" ∨ GraphChildren.namesNonempty rest = true := by
        rcases hcov with hcov | hcov
        · exact Or.inl hcov
        · simp [GraphChildren.namesNonempty, Bool.and_eq_true, bne_iff_ne] at hcov
          exact Or.inr hcov.2
      simp only [GraphChildren.subtreeIds, List.mem_append] at hid
      rcases hid with hid | hid
      · rw [GraphNode.subtreeIds_eq] at hid
        rcases List.mem_cons.mp hid with hid | hid
        · subst hid
          obtain ⟨v, hv⟩ := Option.isSome_iff_exists.mp (a9 hne)
          simp [b7 _ v hv]
        · obtain ⟨v, hv⟩ := Option.isSome_iff_exists.mp (a8 (Or.inl hne) _ hid)
          simp [b7 _ v hv]
      · exact b8 hrestcov id hid
    · intro lo hlo hinv
      exact b9 lo (Nat.le_trans hlo hmstlen) (a10 lo hlo hinv)
end

theorem rowsPar_append_of {par : Option Nat} {lo : Nat} {l1 l2 : List NodeRow}
    {pos : Nat} (h1 : rowsPar par lo pos l1)
    (h2 : rowsPar par lo (pos + l1.length) l2) : rowsPar par lo pos (l1 ++ l2) := by
  induction l1 generalizing pos with
  | nil => simpa using h2
  | cons r rest ih =>
    obtain ⟨hr, hrest⟩ := h1
    exact ⟨hr, ih hrest (by simpa [Nat.add_comm, Nat.add_left_comm] using h2)⟩

theorem rowsPar_weaken {par : Option Nat} {lo lo2 : Nat} {l : List NodeRow}
    {pos : Nat} (h : rowsPar par lo2 pos l) (hlo : lo ≤ lo2) : rowsPar par lo pos l := by
  induction l generalizing pos with
  | nil => trivial
  | cons r rest ih =>
    obtain ⟨hr, hrest⟩ := h
    refine ⟨?_, ih hrest⟩
    rcases hr with hr | ⟨j, hj, hj1, hj2⟩
    · exact Or.inl hr
    · exact Or.inr ⟨j, hj, Nat.le_trans hlo hj1, hj2⟩

theorem rowsPar_absorb {k lo lo2 : Nat} {l : List NodeRow} {pos : Nat}
    (q : Option Nat) (h : rowsPar (some k) lo2 pos l) (hk1 : lo ≤ k) (hk2 : k < pos)
    (hlo : lo ≤ lo2) : rowsPar q lo pos l := by
  induction l generalizing pos with
  | nil => trivial
  | cons r rest ih =>
    obtain ⟨hr, hrest⟩ := h
    refine ⟨?_, ih hrest (Nat.lt_succ_of_lt hk2)⟩
    rcases hr with hr | ⟨j, hj, hj1, hj2⟩
    · exact Or.inr ⟨k, hr, hk1, hk2⟩
    · exact Or.inr ⟨j, hj, Nat.le_trans hlo hj1, hj2⟩

theorem specEntryColumn_parent (r : NodeRow) (kv : String × GraphEntry) :
    (specEntryColumn r kv).parentNodeId = r.parentNodeId := by
  unfold specEntryColumn
  rcases kv with ⟨k, e⟩
  cases e.type
  · dsimp
    split
    · rfl
    · split <;> rfl
  · rfl

theorem specApplyEntries_parent (es : List (String × GraphEntry)) (r : NodeRow) :
    (specApplyEntries r es).parentNodeId = r.parentNodeId := by
  induction es generalizing r with
  | nil => rfl
  | cons kv rest ih =>
    show (specApplyEntries (specEntryColumn r kv) rest).parentNodeId = r.parentNodeId
    rw [ih (specEntryColumn r kv), specEntryColumn_parent]

mutual
theorem emitRecursively_rows (node : GraphNode) (path : String) (par : Option Nat)
    (psid : Nat) (st : Storage) (inm : List (Nat × Nat)) (st2 : Storage)
    (inm2 : List (Nat × Nat))
    (hr : EmitMemorySnapshotNodeRowsRecursively node path par psid st inm = (st2, inm2))
    (hcond : path = "" → GraphChildren.namesNonempty node.children = true) :
    ∃ rows, st2.memorySnapshotNodeTable = st.memorySnapshotNodeTable ++ rows ∧
      rows.length =
        (if path = "" then GraphNode.countNodes node - 1 else GraphNode.countNodes node) ∧
      rowsPar (if path = "" then none else par) st.memorySnapshotNodeTable.length
        st.memorySnapshotNodeTable.length rows ∧
      rows.countP (fun r => r.parentNodeId.isNone) =
        (if path = "" then GraphChildren.length node.children
         else if par = none then 1 else 0) := by
  cases node with
  | mk nid es cs =>
    by_cases hp : path = ""
    · rw [EmitMemorySnapshotNodeRowsRecursively, if_pos hp] at hr
      obtain ⟨rows, htab, hlen, hpar, hcount⟩ :=
        emitChildrenRows_rows cs path none psid st inm st2 inm2 hr
          (Or.inr (hcond hp))
      refine ⟨rows, htab, ?_, by simpa [hp] using hpar, ?_⟩
      · simp only [hp, if_pos]
        simpa [GraphNode.countNodes] using hlen
      · simpa [hp, GraphNode.children] using hcount
    · rw [EmitMemorySnapshotNodeRowsRecursively, if_neg hp, EmitNode_spec] at hr
      obtain ⟨rows2, htab, hlen, hpar, hcount⟩ :=
        emitChildrenRows_rows cs path (some st.memorySnapshotNodeTable.length) psid _ _
          st2 inm2 hr (Or.inl hp)
      refine ⟨specApplyEntries ⟨psid, par, path, none, none⟩ es :: rows2, ?_, ?_, ?_, ?_⟩
      · simpa [List.append_assoc] using htab
      · simp only [if_neg hp]
        have : GraphNode.countNodes (.mk nid es cs) = 1 + GraphChildren.countNodes cs := by
          simp [GraphNode.countNodes]
        simp only [List.length_cons, this]
        omega
      · rw [if_neg hp]
        refine ⟨Or.inl (specApplyEntries_parent es _), ?_⟩
        have hpar2 : rowsPar par st.memorySnapshotNodeTable.length
            (st.memorySnapshotNodeTable.length + 1) rows2 :=
          rowsPar_absorb par (by simpa using hpar) (Nat.le_refl _)
            (Nat.lt_succ_self _) (Nat.le_succ _)
        exact hpar2
      · rw [if_neg hp, List.countP_cons]
        have hc2 : rows2.countP (fun r => r.parentNodeId.isNone) = 0 := by
          simpa using hcount
        rw [hc2, specApplyEntries_parent es _]
        cases par <;> simp

theorem emitChildrenRows_rows (cs : GraphChildren) (path : String)
    (nodeRowId : Option Nat) (psid : Nat) (st : Storage) (inm : List (Nat × Nat))
    (st2 : Storage) (inm2 : List (Nat × Nat))
    (hr : emitChildrenRows cs path nodeRowId psid st inm = (st2, inm2))
    (hcond : path ≠ "" ∨ GraphChildren.namesNonempty cs = true) :
    ∃ rows, st2.memorySnapshotNodeTable = st.memorySnapshotNodeTable ++ rows ∧
      rows.length = GraphChildren.countNodes cs ∧
      rowsPar nodeRowId st.memorySnapshotNodeTable.length
        st.memorySnapshotNodeTable.length rows ∧
      rows.countP (fun r => r.parentNodeId.isNone) =
        (if nodeRowId = none then GraphChildren.length cs else 0) := by
  cases cs with
  | nil =>
    rw [emitChildrenRows] at hr
    obtain ⟨rfl, rfl⟩ := Prod.mk.injEq .. ▸ hr
    refine ⟨[], by simp, by simp [GraphChildren.countNodes], trivial, ?_⟩
    cases nodeRowId <;> simp [GraphChildren.length]
  | cons name child rest =>
    simp only [emitChildrenRows] at hr
    rcases hmid : EmitMemorySnapshotNodeRowsRecursively child
        (if path = "" then name else path ++ "/" ++ name) nodeRowId psid st inm with
      ⟨mst, minm⟩
    rw [hmid] at hr
    have hne : (if path = "" then name else path ++ "/" ++ name) ≠ "" := by
      rcases hcond with hcov | hcov
      · exact childPathNe path name (Or.inl hcov)
      · simp [GraphChildren.namesNonempty, Bool.and_eq_true, bne_iff_ne] at hcov
        exact childPathNe path name (Or.inr hcov.1)
    have hrestcond : path ≠ "" ∨ GraphChildren.namesNonempty rest = true := by
      rcases hcond with hcov | hcov
      · exact Or.inl hcov
      · simp [GraphChildren.namesNonempty, Bool.and_eq_true, bne_iff_ne] at hcov
        exact Or.inr hcov.2
    obtain ⟨rows1, htab1, hlen1, hpar1, hcount1⟩ :=
      emitRecursively_rows child (if path = "" then name else path ++ "/" ++ name)
        nodeRowId psid st inm mst minm hmid (fun h => absurd h hne)
    obtain ⟨rows2, htab2, hlen2, hpar2, hcount2⟩ :=
      emitChildrenRows_rows rest path nodeRowId psid mst minm st2 inm2 hr hrestcond
    refine ⟨rows1 ++ rows2, by simp [htab2, htab1], ?_, ?_, ?_⟩
    · rw [if_neg hne] at hlen1
      simp [GraphChildren.countNodes, hlen1, hlen2]
    · rw [if_neg hne] at hpar1
      refine rowsPar_append_of hpar1 ?_
      have : mst.memorySnapshotNodeTable.length =
          st.memorySnapshotNodeTable.length + rows1.length := by
        simp [htab1]
      rw [← this]
      exact rowsPar_weaken hpar2 (by omega)
    · rw [if_neg hne] at hcount1
      rw [List.countP_append, hcount1, hcount2]
      cases nodeRowId <;> simp [GraphChildren.length]
end

theorem processFold_spec (sid : Nat) (prs : List (Nat × GraphNode)) (st : Storage)
    (inm : List (Nat × Nat)) (st2 : Storage) (inm2 : List (Nat × Nat))
    (hr : prs.foldl (emitProcessStep sid) (st, inm) = (st2, inm2)) :
    st2.memorySnapshotTable = st.memorySnapshotTable ∧
    st2.memorySnapshotEdgeTable = st.memorySnapshotEdgeTable ∧
    st2.statsParserFailure = st.statsParserFailure ∧
    st2.processMemorySnapshotTable = st.processMemorySnapshotTable ++
      prs.map (fun pr => ⟨pr.1, sid⟩) ∧
    (∃ rows, st2.memorySnapshotNodeTable = st.memorySnapshotNodeTable ++ rows) ∧
    (∃ tl, st2.insertTrail = st.insertTrail ++ tl ∧ ∀ x ∈ tl, x ≠ RowKind.edge) ∧
    (∀ id v, findKey id inm = some v → findKey id inm2 = some v) ∧
    ((∀ pr ∈ prs, GraphChildren.namesNonempty pr.2.children = true) →
      ∀ id ∈ (prs.map (fun pr => GraphChildren.subtreeIds pr.2.children)).flatten,
        (findKey id inm2).isSome) ∧
    (∀ lo, lo ≤ st.memorySnapshotNodeTable.length →
      (∀ id v, findKey id inm = some v →
        lo ≤ v ∧ v < st.memorySnapshotNodeTable.length) →
      (∀ id v, findKey id inm2 = some v →
        lo ≤ v ∧ v < st2.memorySnapshotNodeTable.length)) := by
  induction prs generalizing st inm with
  | nil =>
    obtain ⟨rfl, rfl⟩ := Prod.mk.injEq .. ▸ hr
    exact ⟨rfl, rfl, rfl, by simp, ⟨[], by simp⟩, ⟨[], by simp, by simp⟩,
      fun id v hv => hv, fun _ id hid => by simp at hid, fun lo hlo hinv => hinv⟩
  | cons pr prs ih =>
    rw [List.foldl_cons] at hr
    simp only [emitProcessStep, EmitMemorySnapshotNodeRows] at hr
    rcases hstep : EmitMemorySnapshotNodeRowsRecursively pr.2 "" none
        (st.processMemorySnapshotTable.length)
        { st with
          processMemorySnapshotTable :=
            st.processMemorySnapshotTable ++ [⟨pr.1, sid⟩],
          insertTrail := st.insertTrail ++ [.processSnapshot] } inm with ⟨mst, minm⟩
    rw [hstep] at hr
    obtain ⟨a1, a2, a3, a4, a5, a6, a7, a8, a9, a10⟩ :=
      emitRecursively_shape pr.2 "" none (st.processMemorySnapshotTable.length) _ inm
        mst minm hstep
    obtain ⟨b1, b2, b3, b4, b5, b6, b7, b8, b9⟩ := ih mst minm hr
    have hmstlen : st.memorySnapshotNodeTable.length ≤
        mst.memorySnapshotNodeTable.length := by
      obtain ⟨rows, hrows⟩ := a5
      simp only [hrows] at *
      simp
    refine ⟨?_, ?_, ?_, ?_, ?_, ?_, ?_, ?_, ?_⟩
    · rw [b1, a1]
    · rw [b2, a3]
    · rw [b3, a4]
    · rw [b4, a2]
      simp
    · obtain ⟨r1, hr1⟩ := a5
      obtain ⟨r2, hr2⟩ := b5
      exact ⟨r1 ++ r2, by simp only [hr2, hr1]; simp⟩
    · obtain ⟨t1, ht1, hall1⟩ := a6
      obtain ⟨t2, ht2, hall2⟩ := b6
      refine ⟨.processSnapshot :: (t1 ++ t2), ?_, ?_⟩
      · simp only [ht2, ht1]
        simp
      · intro x hx
        rcases List.mem_cons.mp hx with hx | hx
        · subst hx
          simp
        · rcases List.mem_append.mp hx with hx | hx
          · rw [hall1 x hx]
            simp
          · exact hall2 x hx
    · intro id v hv
      exact b7 id v (a7 id v hv)
    · intro hnames id hid
      simp only [List.map_cons, List.flatten_cons, List.mem_append] at hid
      rcases hid with hid | hid
      · have := a8 (Or.inr (hnames pr (by simp))) id hid
        obtain ⟨v, hv⟩ := Option.isSome_iff_exists.mp this
        simp [b7 id v hv]
      · exact b8 (fun q hq => hnames q (List.mem_cons_of_mem _ hq)) id hid
    · intro lo hlo hinv
      exact b9 lo (Nat.le_trans hlo hmstlen) (a10 lo (by simpa using hlo)
        (by simpa using hinv))

theorem edgeFold_shape (edges : List GraphEdge) (inm : List (Nat × Nat)) (st : Storage) :
    (edges.foldl (emitEdgeStep inm) st).memorySnapshotTable = st.memorySnapshotTable ∧
    (edges.foldl (emitEdgeStep inm) st).processMemorySnapshotTable =
      st.processMemorySnapshotTable ∧
    (edges.foldl (emitEdgeStep inm) st).memorySnapshotNodeTable =
      st.memorySnapshotNodeTable ∧
    (edges.foldl (emitEdgeStep inm) st).statsParserFailure = st.statsParserFailure ∧
    (∃ tl, (edges.foldl (emitEdgeStep inm) st).insertTrail = st.insertTrail ++ tl ∧
      ∀ x ∈ tl, x = RowKind.edge) ∧
    (∃ rows, (edges.foldl (emitEdgeStep inm) st).memorySnapshotEdgeTable =
      st.memorySnapshotEdgeTable ++ rows) := by
  induction edges generalizing st with
  | nil => exact ⟨rfl, rfl, rfl, rfl, ⟨[], by simp, by simp⟩, ⟨[], by simp⟩⟩
  | cons e rest ih =>
    rw [List.foldl_cons]
    have hstep : (emitEdgeStep inm st e).memorySnapshotTable = st.memorySnapshotTable ∧
        (emitEdgeStep inm st e).processMemorySnapshotTable =
          st.processMemorySnapshotTable ∧
        (emitEdgeStep inm st e).memorySnapshotNodeTable = st.memorySnapshotNodeTable ∧
        (emitEdgeStep inm st e).statsParserFailure = st.statsParserFailure ∧
        (∃ tl, (emitEdgeStep inm st e).insertTrail = st.insertTrail ++ tl ∧
          ∀ x ∈ tl, x = RowKind.edge) ∧
        (∃ rows, (emitEdgeStep inm st e).memorySnapshotEdgeTable =
          st.memorySnapshotEdgeTable ++ rows) := by
      unfold emitEdgeStep
      split
      · exact ⟨rfl, rfl, rfl, rfl, ⟨[.edge], by simp, by simp⟩, ⟨[_], rfl⟩⟩
      · exact ⟨rfl, rfl, rfl, rfl, ⟨[], by simp, by simp⟩, ⟨[], by simp⟩⟩
    obtain ⟨s1, s2, s3, s4, ⟨t1, ht1, hall1⟩, ⟨r1, hr1⟩⟩ := hstep
    obtain ⟨b1, b2, b3, b4, ⟨t2, ht2, hall2⟩, ⟨r2, hr2⟩⟩ := ih (emitEdgeStep inm st e)
    refine ⟨b1.trans s1, b2.trans s2, b3.trans s3, b4.trans s4, ?_, ?_⟩
    · refine ⟨t1 ++ t2, ?_, ?_⟩
      · rw [ht2, ht1]
        simp
      · intro x hx
        rcases List.mem_append.mp hx with hx | hx
        · exact hall1 x hx
        · exact hall2 x hx
    · exact ⟨r1 ++ r2, by rw [hr2, hr1]; simp⟩

theorem edgeFold_resolved (edges : List GraphEdge) (inm : List (Nat × Nat))
    (st : Storage) (lo n : Nat)
    (hsome : ∀ e ∈ edges, (findKey e.sourceId inm).isSome ∧
      (findKey e.targetId inm).isSome)
    (hbound : ∀ id v, findKey id inm = some v → lo ≤ v ∧ v < n) :
    ∃ rows, (edges.foldl (emitEdgeStep inm) st).memorySnapshotEdgeTable =
      st.memorySnapshotEdgeTable ++ rows ∧ rows.length = edges.length ∧
      ∀ r ∈ rows, lo ≤ r.sourceNodeId ∧ r.sourceNodeId < n ∧
        lo ≤ r.targetNodeId ∧ r.targetNodeId < n := by
  induction edges generalizing st with
  | nil => exact ⟨[], by simp, by simp, by simp⟩
  | cons e rest ih =>
    rw [List.foldl_cons]
    obtain ⟨hs, ht⟩ := hsome e (by simp)
    obtain ⟨vs, hvs⟩ := Option.isSome_iff_exists.mp hs
    obtain ⟨vt, hvt⟩ := Option.isSome_iff_exists.mp ht
    have hstep : emitEdgeStep inm st e =
        { st with
          memorySnapshotEdgeTable := st.memorySnapshotEdgeTable ++ [⟨vs, vt, e.priority⟩],
          insertTrail := st.insertTrail ++ [.edge] } := by
      unfold emitEdgeStep
      rw [hvs, hvt]
    rw [hstep]
    obtain ⟨rows, hrows, hlen, hmem⟩ :=
      ih
        { st with
          memorySnapshotEdgeTable := st.memorySnapshotEdgeTable ++ [⟨vs, vt, e.priority⟩],
          insertTrail := st.insertTrail ++ [.edge] }
        (fun q hq => hsome q (List.mem_cons_of_mem _ hq))
    refine ⟨⟨vs, vt, e.priority⟩ :: rows, ?_, by simp [hlen], ?_⟩
    · simp only [hrows]
      simp
    · intro r hrm
      rcases List.mem_cons.mp hrm with hrm | hrm
      · subst hrm
        obtain ⟨h1, h2⟩ := hbound _ _ hvs
        obtain ⟨h3, h4⟩ := hbound _ _ hvt
        exact ⟨h1, h2, h3, h4⟩
      · exact hmem r hrm

theorem EmitRows_spec (ts : Int) (graph : GlobalNodeGraph) (lod : LevelOfDetail)
    (st : Storage) :
    (EmitRows ts graph lod st).memorySnapshotTable =
      st.memorySnapshotTable ++ [⟨ts, 0, levelOfDetailLabel lod⟩] ∧
    (EmitRows ts graph lod st).processMemorySnapshotTable =
      st.processMemorySnapshotTable ++
        graph.processNodeGraphs.map
          (fun pr => ⟨pr.1, st.memorySnapshotTable.length⟩) ++
        [⟨0, st.memorySnapshotTable.length⟩] ∧
    (EmitRows ts graph lod st).statsParserFailure = st.statsParserFailure ∧
    (∃ rows, (EmitRows ts graph lod st).memorySnapshotNodeTable =
      st.memorySnapshotNodeTable ++ rows) := by
  simp only [EmitRows]
  obtain ⟨pst, pinm, hfold⟩ :
      ∃ pst pinm, graph.processNodeGraphs.foldl
        (emitProcessStep st.memorySnapshotTable.length)
        ({ st with
          memorySnapshotTable := st.memorySnapshotTable ++
            [⟨ts, 0, levelOfDetailLabel lod⟩],
          insertTrail := st.insertTrail ++ [.snapshot] }, []) = (pst, pinm) :=
    ⟨_, _, rfl⟩
  obtain ⟨p1, p2, p3, p4, p5, p6, p7, p8, p9⟩ :=
    processFold_spec st.memorySnapshotTable.length graph.processNodeGraphs _ _ pst pinm
      hfold
  rw [hfold]
  simp only [EmitMemorySnapshotNodeRows]
  obtain ⟨sst, sinm, hsh⟩ :
      ∃ sst sinm, EmitMemorySnapshotNodeRowsRecursively graph.sharedMemoryGraph "" none
        pst.processMemorySnapshotTable.length
        { pst with
          processMemorySnapshotTable := pst.processMemorySnapshotTable ++
            [⟨0, st.memorySnapshotTable.length⟩],
          insertTrail := pst.insertTrail ++ [.processSnapshot] } pinm = (sst, sinm) :=
    ⟨_, _, rfl⟩
  obtain ⟨s1, s2, s3, s4, s5, s6, s7, s8, s9, s10⟩ :=
    emitRecursively_shape graph.sharedMemoryGraph "" none
      pst.processMemorySnapshotTable.length _ pinm sst sinm hsh
  rw [hsh]
  obtain ⟨e1, e2, e3, e4, e5, e6⟩ := edgeFold_shape graph.edges sinm sst
  refine ⟨?_, ?_, ?_, ?_⟩
  · rw [e1, s1]
    simpa using p1
  · rw [e2, s2]
    simp only []
    rw [p4]
  · rw [e4, s4]
    simpa using p3
  · obtain ⟨r1, hr1⟩ := p5
    obtain ⟨r2, hr2⟩ := s5
    refine ⟨r1 ++ r2, ?_⟩
    rw [e3, hr2]
    simp only []
    rw [hr1]
    simp

theorem readEntries_malformed (pre post : List ProtoMemoryNodeEntry)
    (e : ProtoMemoryNodeEntry) (hu : e.value_uint64 = none)
    (hs : e.value_string = none) :
    readEntries (pre ++ e :: post) =
      ((readEntries (pre ++ post)).1, (readEntries (pre ++ post)).2 + 1) := by
  induction pre with
  | nil => simp [readEntries, hu, hs]
  | cons a rest ih =>
    simp only [List.cons_append, readEntries]
    cases ha : a.value_uint64
    · cases ha2 : a.value_string <;> simp [ih]
    · simp [ih]

theorem readAllocatorDumps_aux (lod : LevelOfDetail) (path : String)
    (dumps : List ProtoMemoryNode) (acc : List (String × RawMemoryGraphNode) × Nat)
    (h : (∃ n ∈ dumps, n.absolute_name = path) ∨ (findKey path acc.1).isSome) :
    (findKey path (dumps.foldl
      (fun acc n =>
        let r := readMemoryNode lod n
        (insertIfAbsent r.1.absoluteName r.1 acc.1, acc.2 + r.2)) acc).1).isSome := by
  induction dumps generalizing acc with
  | nil =>
    rcases h with h | h
    · simp at h
    · exact h
  | cons d rest ih =>
    rw [List.foldl_cons]
    apply ih
    rcases h with h | h
    · simp only [List.mem_cons] at h
      obtain ⟨n, hn, hname⟩ := h
      rcases hn with hn | hn
      · subst hn
        right
        have hname2 : (readMemoryNode lod n).1.absoluteName = path := by
          simp [readMemoryNode, hname]
        dsimp only
        rw [hname2]
        exact findKey_insertIfAbsent_self _ _ _
      · exact Or.inl ⟨n, hn, hname⟩
    · right
      obtain ⟨v, hv⟩ := Option.isSome_iff_exists.mp h
      dsimp only
      rw [findKey_insertIfAbsent_of_some hv]
      rfl

theorem readAllocatorDumps_covers (lod : LevelOfDetail) (path : String)
    (dumps : List ProtoMemoryNode) (h : ∃ n ∈ dumps, n.absolute_name = path) :
    (findKey path (readAllocatorDumps lod dumps).1).isSome := by
  exact readAllocatorDumps_aux lod path dumps ([], 0) (Or.inl h)

/-- Claim C1: within one accumulation window, when two chunks both
contribute a node at the same path for the same process, the window keeps
exactly the first chunk's decoded process data — the second chunk's node is
dropped, neither merged with nor overwriting the first (first-writer-wins);
the first chunk's node at that path is present with its entries, and the
finalized output is generated from this window content. -/
theorem C1_first_writer_wins (gb : GraphBuilder) (ts : Int)
    (p : MemoryTrackerSnapshotParser) (lod1 lod2 : Nat)
    (dump1 dump2 : ProtoProcessSnapshot) (path : String)
    (hw : p.aggregateRawNodes = [])
    (hpid : dump2.pid = dump1.pid)
    (h1 : ∃ n ∈ dump1.allocator_dumps, n.absolute_name = path)
    (h2 : ∃ n ∈ dump2.allocator_dumps, n.absolute_name = path) :
    findKey dump1.pid
      (ParseMemoryTrackerSnapshot gb ts ⟨lod2, [dump2]⟩
        (ParseMemoryTrackerSnapshot gb ts ⟨lod1, [dump1]⟩ p)).aggregateRawNodes =
      some ⟨decodeLevelOfDetail lod1, readMemoryEdges dump1.memory_edges,
        (readAllocatorDumps (decodeLevelOfDetail lod1) dump1.allocator_dumps).1⟩ ∧
    (findKey path
      (readAllocatorDumps (decodeLevelOfDetail lod1) dump1.allocator_dumps).1).isSome := by
  have hp1 : (ParseMemoryTrackerSnapshot gb ts ⟨lod1, [dump1]⟩ p).aggregateRawNodes =
      [(dump1.pid, ⟨decodeLevelOfDetail lod1, readMemoryEdges dump1.memory_edges,
        (readAllocatorDumps (decodeLevelOfDetail lod1) dump1.allocator_dumps).1⟩)] := by
    simp [ParseMemoryTrackerSnapshot, hw, ReadProtoSnapshot, readProcessDump,
      insertIfAbsent, findKey]
  have hts1 : (ParseMemoryTrackerSnapshot gb ts ⟨lod1, [dump1]⟩ p).lastSnapshotTimestamp =
      ts := rfl
  have h2agg : (ParseMemoryTrackerSnapshot gb ts ⟨lod2, [dump2]⟩
        (ParseMemoryTrackerSnapshot gb ts ⟨lod1, [dump1]⟩ p)).aggregateRawNodes =
      insertIfAbsent dump2.pid
        ⟨decodeLevelOfDetail lod2, readMemoryEdges dump2.memory_edges,
          (readAllocatorDumps (decodeLevelOfDetail lod2) dump2.allocator_dumps).1⟩
        (ParseMemoryTrackerSnapshot gb ts ⟨lod1, [dump1]⟩ p).aggregateRawNodes := by
    simp [ParseMemoryTrackerSnapshot, hts1, ReadProtoSnapshot, readProcessDump]
  rw [h2agg, hp1]
  have hfound : (findKey dump2.pid
      [(dump1.pid, (⟨decodeLevelOfDetail lod1, readMemoryEdges dump1.memory_edges,
        (readAllocatorDumps (decodeLevelOfDetail lod1) dump1.allocator_dumps).1⟩ :
          RawProcessMemoryNode))]).isSome := by
    rw [hpid]
    simp [findKey]
  rw [insertIfAbsent_of_isSome hfound]
  exact ⟨by simp [findKey], readAllocatorDumps_covers _ _ _ h1⟩

/-- Witness for C1 at a concrete input: two single-dump chunks at timestamp
100, both for pid 7 with a node at path `a`. -/
theorem C1_first_writer_wins_witness :
    findKey 7
      (ParseMemoryTrackerSnapshot trivialGraphBuilder 100
        ⟨0, [⟨7, [⟨2, "a", false, none, []⟩], []⟩]⟩
        (ParseMemoryTrackerSnapshot trivialGraphBuilder 100
          ⟨0, [⟨7, [⟨1, "a", false, some 5, []⟩], []⟩]⟩
          (initialParser emptyStorage))).aggregateRawNodes =
      some ⟨decodeLevelOfDetail 0, readMemoryEdges [],
        (readAllocatorDumps (decodeLevelOfDetail 0) [⟨1, "a", false, some 5, []⟩]).1⟩ ∧
    (findKey "a"
      (readAllocatorDumps (decodeLevelOfDetail 0) [⟨1, "a", false, some 5, []⟩]).1).isSome := by
  exact C1_first_writer_wins trivialGraphBuilder 100 (initialParser emptyStorage) 0 0
    ⟨7, [⟨1, "a", false, some 5, []⟩], []⟩ ⟨7, [⟨2, "a", false, none, []⟩], []⟩ "a"
    rfl rfl ⟨⟨1, "a", false, some 5, []⟩, by simp⟩ ⟨⟨2, "a", false, none, []⟩, by simp⟩

/-- Claim C2 (amended): all decoded edges of a process dump are retained
multi-valued by source and without deduplication, provided the dump's pid is
not already present in the accumulation window when the chunk is merged; a
dump for a pid already in the window is dropped wholesale (per-pid
first-writer-wins), edges included. -/
theorem C2_edges_retained_fresh_pid (gb : GraphBuilder) (ts : Int)
    (p : MemoryTrackerSnapshotParser) (lodc : Nat) (dump : ProtoProcessSnapshot)
    (hfresh : findKey dump.pid p.aggregateRawNodes = none) :
    ∃ raw, findKey dump.pid
        (ParseMemoryTrackerSnapshot gb ts ⟨lodc, [dump]⟩ p).aggregateRawNodes =
          some raw ∧
      raw.edgesMap = readMemoryEdges dump.memory_edges := by
  by_cases hc : p.aggregateRawNodes ≠ [] ∧ ts ≠ p.lastSnapshotTimestamp
  · refine ⟨⟨decodeLevelOfDetail lodc, readMemoryEdges dump.memory_edges,
      (readAllocatorDumps (decodeLevelOfDetail lodc) dump.allocator_dumps).1⟩, ?_, rfl⟩
    simp [ParseMemoryTrackerSnapshot, hc, GenerateGraphFromRawNodesAndEmitRows,
      ReadProtoSnapshot, readProcessDump, insertIfAbsent, findKey]
  · refine ⟨⟨decodeLevelOfDetail lodc, readMemoryEdges dump.memory_edges,
      (readAllocatorDumps (decodeLevelOfDetail lodc) dump.allocator_dumps).1⟩, ?_, rfl⟩
    have hagg : (ParseMemoryTrackerSnapshot gb ts ⟨lodc, [dump]⟩ p).aggregateRawNodes =
        insertIfAbsent dump.pid
          ⟨decodeLevelOfDetail lodc, readMemoryEdges dump.memory_edges,
            (readAllocatorDumps (decodeLevelOfDetail lodc) dump.allocator_dumps).1⟩
          p.aggregateRawNodes := by
      simp [ParseMemoryTrackerSnapshot, hc, ReadProtoSnapshot, readProcessDump]
    rw [hagg, insertIfAbsent_of_none hfresh]
    exact findKey_append_self _ _ _ hfresh

/-- Witness for C2's amended statement: a fresh pid 7 whose dump has two
edges sharing source id 1; both are retained in order. -/
theorem C2_edges_retained_fresh_pid_witness :
    ∃ raw, findKey 7
        (ParseMemoryTrackerSnapshot trivialGraphBuilder 100
          ⟨0, [⟨7, [], [⟨1, 2, 0, false⟩, ⟨1, 3, 9, true⟩]⟩]⟩
          (initialParser emptyStorage)).aggregateRawNodes = some raw ∧
      raw.edgesMap = readMemoryEdges [⟨1, 2, 0, false⟩, ⟨1, 3, 9, true⟩] := by
  exact C2_edges_retained_fresh_pid trivialGraphBuilder 100 (initialParser emptyStorage)
    0 ⟨7, [], [⟨1, 2, 0, false⟩, ⟨1, 3, 9, true⟩]⟩ rfl

/-- Counterexample to C2 as stated: two chunks at the same timestamp both
carry data for pid 7; the second chunk's decoded edge `(3, 4)` is not
retained in the accumulated edge collection — the whole second dump is
dropped because pid 7 is already present in the window. -/
theorem C2_counterexample :
    findKey 7
      (ParseMemoryTrackerSnapshot trivialGraphBuilder 100
        ⟨0, [⟨7, [], [⟨3, 4, 5, true⟩]⟩]⟩
        (ParseMemoryTrackerSnapshot trivialGraphBuilder 100
          ⟨0, [⟨7, [], [⟨1, 2, 0, false⟩]⟩]⟩
          (initialParser emptyStorage))).aggregateRawNodes =
      some ⟨.kDetailed, [(1, ⟨1, 2, 0, false⟩)], []⟩ ∧
    ((3 : Nat), (⟨3, 4, 5, true⟩ : MemoryGraphEdge)) ∉
      [((1 : Nat), (⟨1, 2, 0, false⟩ : MemoryGraphEdge))] := by
  exact ⟨by decide, by decide⟩

/-- Claim C3: the detail-level label stored on a finalized snapshot row is
the label of the detail level of the chunk appended most recently to the
window, silently overriding any earlier chunk's level. -/
theorem C3_detail_level_last_chunk (gb : GraphBuilder) (ts : Int)
    (blob : ProtoMemoryTrackerSnapshot) (p : MemoryTrackerSnapshotParser)
    (hne : (ParseMemoryTrackerSnapshot gb ts blob p).aggregateRawNodes ≠ []) :
    (NotifyEndOfFile gb
        (ParseMemoryTrackerSnapshot gb ts blob p)).storage.memorySnapshotTable.getLast? =
      some ⟨ts, 0, levelOfDetailLabel (decodeLevelOfDetail blob.level_of_detail)⟩ := by
  have hts : (ParseMemoryTrackerSnapshot gb ts blob p).lastSnapshotTimestamp = ts := rfl
  have hlod : (ParseMemoryTrackerSnapshot gb ts blob p).lastSnapshotLevelOfDetail =
      decodeLevelOfDetail blob.level_of_detail := rfl
  rw [NotifyEndOfFile, if_pos hne]
  unfold GenerateGraphFromRawNodesAndEmitRows
  dsimp only
  rw [(EmitRows_spec _ _ _ _).1, hts, hlod]
  simp

/-- Witness for C3: a single chunk with detail-level code 1 (LIGHT) yields a
snapshot row labelled `light`. -/
theorem C3_detail_level_last_chunk_witness :
    (NotifyEndOfFile trivialGraphBuilder
        (ParseMemoryTrackerSnapshot trivialGraphBuilder 100 ⟨1, [⟨7, [], []⟩]⟩
          (initialParser emptyStorage))).storage.memorySnapshotTable.getLast? =
      some ⟨100, 0, levelOfDetailLabel (decodeLevelOfDetail 1)⟩ := by
  exact C3_detail_level_last_chunk trivialGraphBuilder 100 ⟨1, [⟨7, [], []⟩]⟩
    (initialParser emptyStorage) (by decide)

/-- Claim C4: an entry with neither a numeric nor a string value increments
the parser-failure counter by exactly one and produces no decoded entry,
while the node's sibling entries are still decoded and the node is still
merged into the window (the failure never aborts the snapshot). -/
theorem C4_malformed_entry (pre post : List ProtoMemoryNodeEntry)
    (e : ProtoMemoryNodeEntry) (pid lodc : Nat) (nodeP : ProtoMemoryNode)
    (edges : List ProtoMemoryEdge) (st : Storage) (w : RawMemoryNodeMap)
    (hu : e.value_uint64 = none) (hs : e.value_string = none)
    (hent : nodeP.entries = pre ++ e :: post)
    (hfresh : findKey pid w = none) :
    readEntries (pre ++ e :: post) =
      ((readEntries (pre ++ post)).1, (readEntries (pre ++ post)).2 + 1) ∧
    (ReadProtoSnapshot ⟨lodc, [⟨pid, [nodeP], edges⟩]⟩ st w).1.statsParserFailure =
      st.statsParserFailure + (readEntries (pre ++ post)).2 + 1 ∧
    findKey pid (ReadProtoSnapshot ⟨lodc, [⟨pid, [nodeP], edges⟩]⟩ st w).2.1 =
      some ⟨decodeLevelOfDetail lodc, readMemoryEdges edges,
        [(nodeP.absolute_name,
          (readMemoryNode (decodeLevelOfDetail lodc)
            { nodeP with entries := pre ++ post }).1)]⟩ := by
  have hdrop := readEntries_malformed pre post e hu hs
  refine ⟨hdrop, ?_, ?_⟩
  · simp only [ReadProtoSnapshot, List.foldl_cons, List.foldl_nil, readProcessDump,
      readAllocatorDumps, readMemoryNode, hent, hdrop]
    omega
  · have hnode : (readMemoryNode (decodeLevelOfDetail lodc) nodeP).1 =
        (readMemoryNode (decodeLevelOfDetail lodc)
          { nodeP with entries := pre ++ post }).1 := by
      simp [readMemoryNode, hent, hdrop]
    simp only [ReadProtoSnapshot, List.foldl_cons, List.foldl_nil, readProcessDump,
      readAllocatorDumps]
    rw [hnode]
    have hins : insertIfAbsent
        (readMemoryNode (decodeLevelOfDetail lodc)
          { nodeP with entries := pre ++ post }).1.absoluteName
        (readMemoryNode (decodeLevelOfDetail lodc)
          { nodeP with entries := pre ++ post }).1 ([] : List (String × RawMemoryGraphNode)) =
        [(nodeP.absolute_name,
          (readMemoryNode (decodeLevelOfDetail lodc)
            { nodeP with entries := pre ++ post }).1)] := by
      simp [insertIfAbsent, findKey, readMemoryNode]
    rw [hins, insertIfAbsent_of_none hfresh]
    exact findKey_append_self _ _ _ hfresh

/-- Witness for C4: a node for pid 7 with a numeric entry, a malformed
entry, and a string entry; the counter rises by exactly one and both
siblings are decoded. -/
theorem C4_malformed_entry_witness :
    readEntries ([⟨"n", 2, some 5, none⟩] ++ ⟨"bad", 0, none, none⟩ ::
        [⟨"s", 0, none, some "x"⟩]) =
      ((readEntries ([⟨"n", 2, some 5, none⟩] ++ [⟨"s", 0, none, some "x"⟩])).1,
       (readEntries ([⟨"n", 2, some 5, none⟩] ++ [⟨"s", 0, none, some "x"⟩])).2 + 1) ∧
    (ReadProtoSnapshot ⟨0, [⟨7, [⟨1, "a", false, none,
        [⟨"n", 2, some 5, none⟩, ⟨"bad", 0, none, none⟩, ⟨"s", 0, none, some "x"⟩]⟩],
        []⟩]⟩ emptyStorage []).1.statsParserFailure =
      emptyStorage.statsParserFailure +
        (readEntries ([⟨"n", 2, some 5, none⟩] ++ [⟨"s", 0, none, some "x"⟩])).2 + 1 ∧
    findKey 7 (ReadProtoSnapshot ⟨0, [⟨7, [⟨1, "a", false, none,
        [⟨"n", 2, some 5, none⟩, ⟨"bad", 0, none, none⟩, ⟨"s", 0, none, some "x"⟩]⟩],
        []⟩]⟩ emptyStorage []).2.1 =
      some ⟨decodeLevelOfDetail 0, readMemoryEdges [],
        [("a", (readMemoryNode (decodeLevelOfDetail 0)
          { id := 1, absolute_name := "a", weak := false, size_bytes := none,
            entries := [⟨"n", 2, some 5, none⟩] ++ [⟨"s", 0, none, some "x"⟩] }).1)]⟩ := by
  exact C4_malformed_entry [⟨"n", 2, some 5, none⟩] [⟨"s", 0, none, some "x"⟩]
    ⟨"bad", 0, none, none⟩ 7 0
    ⟨1, "a", false, none,
      [⟨"n", 2, some 5, none⟩, ⟨"bad", 0, none, none⟩, ⟨"s", 0, none, some "x"⟩]⟩
    [] emptyStorage [] rfl rfl rfl rfl

/-- Claim C9: the end-of-stream notification is a no-op on an empty window
(including when no chunk was ever appended), finalizes a non-empty window
exactly once (emitting with the window's timestamp and detail level and then
clearing the window), and is idempotent. -/
theorem C9_notify_end_of_file (gb : GraphBuilder) (p : MemoryTrackerSnapshotParser) :
    (p.aggregateRawNodes = [] → NotifyEndOfFile gb p = p) ∧
    (p.aggregateRawNodes ≠ [] →
      NotifyEndOfFile gb p =
        { storage := EmitRows p.lastSnapshotTimestamp (gb p.aggregateRawNodes)
            p.lastSnapshotLevelOfDetail p.storage,
          aggregateRawNodes := [],
          lastSnapshotTimestamp := p.lastSnapshotTimestamp,
          lastSnapshotLevelOfDetail := p.lastSnapshotLevelOfDetail }) ∧
    NotifyEndOfFile gb (NotifyEndOfFile gb p) = NotifyEndOfFile gb p := by
  refine ⟨?_, ?_, ?_⟩
  · intro h
    simp [NotifyEndOfFile, h]
  · intro h
    simp [NotifyEndOfFile, h, GenerateGraphFromRawNodesAndEmitRows]
  · by_cases h : p.aggregateRawNodes = []
    · simp [NotifyEndOfFile, h]
    · simp [NotifyEndOfFile, h, GenerateGraphFromRawNodesAndEmitRows]

/-- Witness for C9: on an empty window the notification is the identity; on
a one-process window it finalizes into the stated record. -/
theorem C9_notify_end_of_file_witness :
    (NotifyEndOfFile trivialGraphBuilder (initialParser emptyStorage) =
      initialParser emptyStorage) ∧
    (NotifyEndOfFile trivialGraphBuilder
        ⟨emptyStorage, [(7, ⟨.kLight, [], []⟩)], 100, .kLight⟩ =
      { storage := EmitRows 100
          (trivialGraphBuilder [(7, ⟨.kLight, [], []⟩)]) .kLight emptyStorage,
        aggregateRawNodes := [],
        lastSnapshotTimestamp := 100,
        lastSnapshotLevelOfDetail := .kLight }) := by
  exact ⟨(C9_notify_end_of_file trivialGraphBuilder (initialParser emptyStorage)).1 rfl,
    (C9_notify_end_of_file trivialGraphBuilder
      ⟨emptyStorage, [(7, ⟨.kLight, [], []⟩)], 100, .kLight⟩).2.1 (by decide)⟩

/-- Claim C5: a finalized snapshot contains exactly one ProcessSnapshot row
per distinct process id of the accumulation window (via the GraphBuilder
contract that the graph has one process tree per window pid), plus exactly
one additional unconditional row for the reserved shared-memory
pseudo-process id 0. -/
theorem C5_process_snapshot_rows (gb : GraphBuilder) (p : MemoryTrackerSnapshotParser)
    (hne : p.aggregateRawNodes ≠ [])
    (hgb : (gb p.aggregateRawNodes).processNodeGraphs.map Prod.fst =
      p.aggregateRawNodes.map Prod.fst)
    (hnd : (p.aggregateRawNodes.map Prod.fst).Nodup) :
    (NotifyEndOfFile gb p).storage.processMemorySnapshotTable =
      p.storage.processMemorySnapshotTable ++
        p.aggregateRawNodes.map
          (fun e => ⟨e.1, p.storage.memorySnapshotTable.length⟩) ++
        [⟨0, p.storage.memorySnapshotTable.length⟩] := by
  rw [NotifyEndOfFile, if_pos hne]
  unfold GenerateGraphFromRawNodesAndEmitRows
  dsimp only
  rw [(EmitRows_spec _ _ _ _).2.1]
  have hmap : (gb p.aggregateRawNodes).processNodeGraphs.map
      (fun pr => (⟨pr.1, p.storage.memorySnapshotTable.length⟩ : ProcessSnapshotRow)) =
      p.aggregateRawNodes.map
        (fun e => ⟨e.1, p.storage.memorySnapshotTable.length⟩) := by
    have h1 := congrArg
      (List.map (fun pid => (⟨pid, p.storage.memorySnapshotTable.length⟩ :
        ProcessSnapshotRow))) hgb
    simpa [List.map_map, Function.comp] using h1
  rw [hmap]

/-- Witness for C5: a window with pids 7 and 9 and a graph builder honouring
the contract produce rows for 7, 9 and the pseudo-process 0. -/
theorem C5_process_snapshot_rows_witness :
    (NotifyEndOfFile
        (fun _ => ⟨[(7, .mk 1 [] .nil), (9, .mk 2 [] .nil)], .mk 0 [] .nil, []⟩)
        ⟨emptyStorage, [(7, ⟨.kDetailed, [], []⟩), (9, ⟨.kDetailed, [], []⟩)], 100,
          .kDetailed⟩).storage.processMemorySnapshotTable =
      emptyStorage.processMemorySnapshotTable ++
        [(7, (⟨.kDetailed, [], []⟩ : RawProcessMemoryNode)),
         (9, ⟨.kDetailed, [], []⟩)].map
          (fun e => ⟨e.1, emptyStorage.memorySnapshotTable.length⟩) ++
        [⟨0, emptyStorage.memorySnapshotTable.length⟩] := by
  exact C5_process_snapshot_rows
    (fun _ => ⟨[(7, .mk 1 [] .nil), (9, .mk 2 [] .nil)], .mk 0 [] .nil, []⟩)
    ⟨emptyStorage, [(7, ⟨.kDetailed, [], []⟩), (9, ⟨.kDetailed, [], []⟩)], 100,
      .kDetailed⟩ (by decide) (by decide) (by decide)

/-- Claim C8: emitting a node inserts one row (id = its table index) and
then processes its entries in order: a numeric `size` / `effective_size`
entry updates the dedicated column of the already-inserted row in place and
contributes no generic argument; every other numeric entry contributes a
`<key>.value` integer argument plus a `<key>.unit` argument exactly when its
unit is recognized; a string entry contributes only a `<key>.value` string
argument and never a unit argument (all per `specEntryArgs` /
`specApplyEntries`, stated from the claim wording). -/
theorem C8_entry_emission (node : GraphNode) (path : String) (par : Option Nat)
    (psid : Nat) (st : Storage) (inm : List (Nat × Nat)) :
    EmitNode node path par psid st inm =
      (st.memorySnapshotNodeTable.length,
       { st with
         memorySnapshotNodeTable := st.memorySnapshotNodeTable ++
           [specApplyEntries ⟨psid, par, path, none, none⟩ node.constEntries],
         args := st.args ++ (node.constEntries.map
           (specEntryArgs st.memorySnapshotNodeTable.length)).flatten,
         insertTrail := st.insertTrail ++ [.node] },
       insertIfAbsent node.id st.memorySnapshotNodeTable.length inm) :=
  EmitNode_spec node path par psid st inm

/-- Claim C10: a numeric (uint64) node entry is reinterpreted as a signed
64-bit integer before being stored; for any value with the top bit set the
stored value is the value minus `2 ^ 64`, which is negative — whether it
lands in the `size` / `effective_size` column or in a `<key>.value`
argument. -/
theorem C10_uint64_reinterpreted (node : GraphNode) (path : String)
    (par : Option Nat) (psid : Nat) (st : Storage) (inm : List (Nat × Nat))
    (k : String) (e : GraphEntry)
    (hent : node.constEntries = [(k, e)]) (htype : e.type = .kUInt64)
    (hhi : 2 ^ 63 ≤ e.value_uint64) (hlt : e.value_uint64 < 2 ^ 64) :
    ((e.value_uint64 : Int) - 2 ^ 64 < 0) ∧
    toInt64 e.value_uint64 = (e.value_uint64 : Int) - 2 ^ 64 ∧
    (k = "size" →
      (EmitNode node path par psid st inm).2.1.memorySnapshotNodeTable =
        st.memorySnapshotNodeTable ++
          [⟨psid, par, path, some ((e.value_uint64 : Int) - 2 ^ 64), none⟩]) ∧
    (k = "effective_size" →
      (EmitNode node path par psid st inm).2.1.memorySnapshotNodeTable =
        st.memorySnapshotNodeTable ++
          [⟨psid, par, path, none, some ((e.value_uint64 : Int) - 2 ^ 64)⟩]) ∧
    (k ≠ "size" → k ≠ "effective_size" →
      (EmitNode node path par psid st inm).2.1.args =
        st.args ++
          (⟨st.memorySnapshotNodeTable.length, k ++ ".value",
            .Integer ((e.value_uint64 : Int) - 2 ^ 64)⟩ ::
           (if e.units < unitIds.length then
             [⟨st.memorySnapshotNodeTable.length, k ++ ".unit",
               .Str (unitIds.getD e.units "")⟩]
            else []))) := by
  have hneg : (e.value_uint64 : Int) - 2 ^ 64 < 0 := by
    have : (e.value_uint64 : Int) < 2 ^ 64 := by exact_mod_cast hlt
    omega
  have hto : toInt64 e.value_uint64 = (e.value_uint64 : Int) - 2 ^ 64 := by
    unfold toInt64
    rw [Nat.mod_eq_of_lt hlt, if_neg (Nat.not_lt.mpr hhi)]
  refine ⟨hneg, hto, ?_, ?_, ?_⟩
  · intro hk
    rw [EmitNode_spec]
    simp [specApplyEntries, specEntryColumn, hent, htype, hk, hto]
  · intro hk
    rw [EmitNode_spec]
    simp [specApplyEntries, specEntryColumn, hent, htype, hk, hto]
  · intro hk1 hk2
    rw [EmitNode_spec]
    simp [specEntryArgs, hent, htype, hk1, hk2, hto]

/-- Witness for C10: the value `2 ^ 63` stored through a `size` entry lands
in the size column as the negative integer `2 ^ 63 - 2 ^ 64`. -/
theorem C10_uint64_reinterpreted_witness :
    (((2 ^ 63 : Nat) : Int) - 2 ^ 64 < 0) ∧
    (EmitNode (.mk 0 [("size", ⟨.kUInt64, 1, 2 ^ 63, ""⟩)] .nil) "a" none 3
        emptyStorage []).2.1.memorySnapshotNodeTable =
      emptyStorage.memorySnapshotNodeTable ++
        [⟨3, none, "a", some (((2 ^ 63 : Nat) : Int) - 2 ^ 64), none⟩] := by
  have h := C10_uint64_reinterpreted
    (.mk 0 [("size", ⟨.kUInt64, 1, 2 ^ 63, ""⟩)] .nil) "a" none 3 emptyStorage []
    "size" ⟨.kUInt64, 1, 2 ^ 63, ""⟩ rfl rfl (by norm_num) (by norm_num)
  exact ⟨h.1, h.2.2.1 rfl⟩

theorem rowsPar_get {par : Option Nat} {lo : Nat} :
    ∀ {l : List NodeRow} {pos : Nat}, rowsPar par lo pos l →
      ∀ i (hi : i < l.length), (l.get ⟨i, hi⟩).parentNodeId = par ∨
        ∃ j, (l.get ⟨i, hi⟩).parentNodeId = some j ∧ lo ≤ j ∧ j < pos + i := by
  intro l
  induction l with
  | nil => intro pos h i hi; simp at hi
  | cons r rest ih =>
    intro pos h i hi
    obtain ⟨hr, hrest⟩ := h
    cases i with
    | zero =>
      rcases hr with hr | ⟨j, hj, hj1, hj2⟩
      · exact Or.inl hr
      · exact Or.inr ⟨j, hj, hj1, by simpa using hj2⟩
    | succ i =>
      have := ih hrest i (by simpa using Nat.lt_of_succ_lt_succ hi)
      rcases this with hthis | ⟨j, hj, hj1, hj2⟩
      · exact Or.inl hthis
      · exact Or.inr ⟨j, hj, hj1, by omega⟩

/-- Claim C6: emitting a tree never inserts the synthetic root itself (the
number of inserted rows is the tree's node count minus one), every inserted
row's `parent_node_id` is either absent or the index of a row inserted
strictly before it within the same emission, and the rows with an absent
parent are exactly the tree's top-level children. -/
theorem C6_root_skipped_parent_links (root : GraphNode) (psid : Nat) (st : Storage)
    (inm : List (Nat × Nat))
    (hnames : GraphChildren.namesNonempty root.children = true) :
    ∃ rows, (EmitMemorySnapshotNodeRows root psid st inm).1.memorySnapshotNodeTable =
        st.memorySnapshotNodeTable ++ rows ∧
      rows.length = GraphNode.countNodes root - 1 ∧
      (∀ i (hi : i < rows.length), (rows.get ⟨i, hi⟩).parentNodeId = none ∨
        ∃ j, (rows.get ⟨i, hi⟩).parentNodeId = some j ∧
          st.memorySnapshotNodeTable.length ≤ j ∧
          j < st.memorySnapshotNodeTable.length + i) ∧
      rows.countP (fun r => r.parentNodeId.isNone) =
        GraphChildren.length root.children := by
  obtain ⟨st2, inm2, hres⟩ :
      ∃ st2 inm2, EmitMemorySnapshotNodeRows root psid st inm = (st2, inm2) :=
    ⟨_, _, rfl⟩
  rw [hres]
  rw [EmitMemorySnapshotNodeRows] at hres
  obtain ⟨rows, htab, hlen, hpar, hcount⟩ :=
    emitRecursively_rows root "" none psid st inm st2 inm2 hres (fun _ => hnames)
  refine ⟨rows, htab, by simpa using hlen, ?_, ?_⟩
  · intro i hi
    have hpar2 : rowsPar none st.memorySnapshotNodeTable.length
        st.memorySnapshotNodeTable.length rows := by simpa using hpar
    have := rowsPar_get hpar2 i hi
    rcases this with hthis | ⟨j, hj, hj1, hj2⟩
    · exact Or.inl hthis
    · exact Or.inr ⟨j, hj, hj1, hj2⟩
  · simpa using hcount

/-- Witness for C6: a root with child `a` and grandchild `a/b` yields two
rows — `a` with no parent, `a/b` pointing at the strictly earlier row of
`a` — and the root itself is not inserted. -/
theorem C6_root_skipped_parent_links_witness :
    ∃ rows, (EmitMemorySnapshotNodeRows
        (.mk 0 [] (.cons "a" (.mk 1 [] (.cons "b" (.mk 2 [] .nil) .nil)) .nil)) 5
        emptyStorage []).1.memorySnapshotNodeTable =
        emptyStorage.memorySnapshotNodeTable ++ rows ∧
      rows.length = GraphNode.countNodes
        (.mk 0 [] (.cons "a" (.mk 1 [] (.cons "b" (.mk 2 [] .nil) .nil)) .nil)) - 1 ∧
      (∀ i (hi : i < rows.length), (rows.get ⟨i, hi⟩).parentNodeId = none ∨
        ∃ j, (rows.get ⟨i, hi⟩).parentNodeId = some j ∧
          emptyStorage.memorySnapshotNodeTable.length ≤ j ∧
          j < emptyStorage.memorySnapshotNodeTable.length + i) ∧
      rows.countP (fun r => r.parentNodeId.isNone) =
        GraphChildren.length
          (GraphNode.children
            (.mk 0 [] (.cons "a" (.mk 1 [] (.cons "b" (.mk 2 [] .nil) .nil)) .nil))) :=
  C6_root_skipped_parent_links
    (.mk 0 [] (.cons "a" (.mk 1 [] (.cons "b" (.mk 2 [] .nil) .nil)) .nil)) 5
    emptyStorage [] (by decide)

/-- Claim C7: in a finalized snapshot, all edge rows are inserted strictly
after every node row of every process tree and of the shared tree, and —
under the GraphBuilder contract that every edge endpoint is the identity of
a non-root node of one of the trees (and that child names are non-empty
path segments) — both identity lookups succeed for every edge, so exactly
one edge row is inserted per graph edge and each such row references node
rows of this same finalized snapshot's output (the lookup-miss case is
unreachable). -/
theorem C7_edges_after_nodes (ts : Int) (graph : GlobalNodeGraph)
    (lod : LevelOfDetail) (st : Storage)
    (hnames : (∀ pr ∈ graph.processNodeGraphs,
        GraphChildren.namesNonempty pr.2.children = true) ∧
      GraphChildren.namesNonempty graph.sharedMemoryGraph.children = true)
    (hpre : ∀ e ∈ graph.edges,
      e.sourceId ∈ emittedIds graph ∧ e.targetId ∈ emittedIds graph) :
    (∃ mid tl, (EmitRows ts graph lod st).insertTrail =
        st.insertTrail ++ mid ++ tl ∧
      (∀ x ∈ mid, x ≠ RowKind.edge) ∧ (∀ x ∈ tl, x = RowKind.edge)) ∧
    (∃ newEdges, (EmitRows ts graph lod st).memorySnapshotEdgeTable =
        st.memorySnapshotEdgeTable ++ newEdges ∧
      newEdges.length = graph.edges.length ∧
      ∀ r ∈ newEdges,
        st.memorySnapshotNodeTable.length ≤ r.sourceNodeId ∧
        r.sourceNodeId < (EmitRows ts graph lod st).memorySnapshotNodeTable.length ∧
        st.memorySnapshotNodeTable.length ≤ r.targetNodeId ∧
        r.targetNodeId < (EmitRows ts graph lod st).memorySnapshotNodeTable.length) := by
  simp only [EmitRows]
  obtain ⟨pst, pinm, hfold⟩ :
      ∃ pst pinm, graph.processNodeGraphs.foldl
        (emitProcessStep st.memorySnapshotTable.length)
        ({ st with
          memorySnapshotTable := st.memorySnapshotTable ++
            [⟨ts, 0, levelOfDetailLabel lod⟩],
          insertTrail := st.insertTrail ++ [.snapshot] }, []) = (pst, pinm) :=
    ⟨_, _, rfl⟩
  obtain ⟨p1, p2, p3, p4, p5, p6, p7, p8, p9⟩ :=
    processFold_spec st.memorySnapshotTable.length graph.processNodeGraphs _ _ pst pinm
      hfold
  rw [hfold]
  simp only [EmitMemorySnapshotNodeRows]
  obtain ⟨sst, sinm, hsh⟩ :
      ∃ sst sinm, EmitMemorySnapshotNodeRowsRecursively graph.sharedMemoryGraph "" none
        pst.processMemorySnapshotTable.length
        { pst with
          processMemorySnapshotTable := pst.processMemorySnapshotTable ++
            [⟨0, st.memorySnapshotTable.length⟩],
          insertTrail := pst.insertTrail ++ [.processSnapshot] } pinm = (sst, sinm) :=
    ⟨_, _, rfl⟩
  obtain ⟨s1, s2, s3, s4, s5, s6, s7, s8, s9, s10⟩ :=
    emitRecursively_shape graph.sharedMemoryGraph "" none
      pst.processMemorySnapshotTable.length _ pinm sst sinm hsh
  rw [hsh]
  have hcov : ∀ id ∈ emittedIds graph, (findKey id sinm).isSome = true := by
    intro id hid
    unfold emittedIds at hid
    rcases List.mem_append.mp hid with hid | hid
    · have h1 := p8 hnames.1 id hid
      obtain ⟨v, hv⟩ := Option.isSome_iff_exists.mp h1
      simp [s7 id v hv]
    · exact s8 (Or.inr hnames.2) id hid
  have hinv0 : ∀ id v, findKey id ([] : List (Nat × Nat)) = some v →
      st.memorySnapshotNodeTable.length ≤ v ∧
      v < ({ st with
        memorySnapshotTable := st.memorySnapshotTable ++
          [⟨ts, 0, levelOfDetailLabel lod⟩],
        insertTrail := st.insertTrail ++
          [RowKind.snapshot] } : Storage).memorySnapshotNodeTable.length := by
    intro id v hv
    simp [findKey] at hv
  have hinv1 := p9 st.memorySnapshotNodeTable.length (by simp) hinv0
  have hpstlen : st.memorySnapshotNodeTable.length ≤
      pst.memorySnapshotNodeTable.length := by
    obtain ⟨rows, hrows⟩ := p5
    simp only [hrows]
    simp
  have hinv2 := s10 st.memorySnapshotNodeTable.length (by simpa using hpstlen)
    (by simpa using hinv1)
  have hsome : ∀ e ∈ graph.edges, (findKey e.sourceId sinm).isSome = true ∧
      (findKey e.targetId sinm).isSome = true := by
    intro e he
    exact ⟨hcov _ (hpre e he).1, hcov _ (hpre e he).2⟩
  obtain ⟨newEdges, hed, hlen, hbounds⟩ :=
    edgeFold_resolved graph.edges sinm sst st.memorySnapshotNodeTable.length
      sst.memorySnapshotNodeTable.length hsome hinv2
  obtain ⟨e1, e2, e3, e4, ⟨etl, hetl, halledge⟩, e6⟩ := edgeFold_shape graph.edges sinm sst
  obtain ⟨ptl, hptl, hpne⟩ := p6
  obtain ⟨stl, hstl, hallnode⟩ := s6
  constructor
  · refine ⟨[RowKind.snapshot] ++ ptl ++ ([RowKind.processSnapshot] ++ stl), etl,
      ?_, ?_, halledge⟩
    · rw [hetl, hstl]
      simp only []
      rw [hptl]
      simp
    · intro x hx
      simp only [List.mem_append, List.mem_singleton] at hx
      rcases hx with ((hx | hx) | (hx | hx))
      · subst hx
        simp
      · have := hpne x hx
        exact this
      · subst hx
        simp
      · rw [hallnode x hx]
        simp
  · refine ⟨newEdges, ?_, hlen, ?_⟩
    · rw [hed, s3]
      simp only []
      rw [p2]
    · intro r hr
      obtain ⟨h1, h2, h3, h4⟩ := hbounds r hr
      rw [e3]
      exact ⟨h1, h2, h3, h4⟩

/-- Witness for C7: one process tree (pid 7) with a single child node of
identity 2, an empty shared tree, and one edge from node 2 to node 2; the
edge row is emitted after the node rows and references the emitted node row. -/
theorem C7_edges_after_nodes_witness :
    (∃ mid tl, (EmitRows 100
        ⟨[(7, .mk 1 [] (.cons "a" (.mk 2 [] .nil) .nil))], .mk 9 [] .nil,
          [⟨2, 2, 1⟩]⟩ .kDetailed emptyStorage).insertTrail =
        emptyStorage.insertTrail ++ mid ++ tl ∧
      (∀ x ∈ mid, x ≠ RowKind.edge) ∧ (∀ x ∈ tl, x = RowKind.edge)) ∧
    (∃ newEdges, (EmitRows 100
        ⟨[(7, .mk 1 [] (.cons "a" (.mk 2 [] .nil) .nil))], .mk 9 [] .nil,
          [⟨2, 2, 1⟩]⟩ .kDetailed emptyStorage).memorySnapshotEdgeTable =
        emptyStorage.memorySnapshotEdgeTable ++ newEdges ∧
      newEdges.length = ([⟨2, 2, 1⟩] : List GraphEdge).length ∧
      ∀ r ∈ newEdges,
        emptyStorage.memorySnapshotNodeTable.length ≤ r.sourceNodeId ∧
        r.sourceNodeId < (EmitRows 100
          ⟨[(7, .mk 1 [] (.cons "a" (.mk 2 [] .nil) .nil))], .mk 9 [] .nil,
            [⟨2, 2, 1⟩]⟩ .kDetailed emptyStorage).memorySnapshotNodeTable.length ∧
        emptyStorage.memorySnapshotNodeTable.length ≤ r.targetNodeId ∧
        r.targetNodeId < (EmitRows 100
          ⟨[(7, .mk 1 [] (.cons "a" (.mk 2 [] .nil) .nil))], .mk 9 [] .nil,
            [⟨2, 2, 1⟩]⟩ .kDetailed emptyStorage).memorySnapshotNodeTable.length) :=
  C7_edges_after_nodes 100
    ⟨[(7, .mk 1 [] (.cons "a" (.mk 2 [] .nil) .nil))], .mk 9 [] .nil, [⟨2, 2, 1⟩]⟩
    .kDetailed emptyStorage ⟨by decide, by decide⟩ (by decide)
